import Mathlib

/-!
Verification development for the Notion → Figma design-token sync engine.

The definitions below are a shallow embedding of the TypeScript sources:
  * `src/ui/services/notionTransform.ts` (color codec, field extraction,
    path normalization, batch transformation with relation resolution),
  * `src/plugin/utils/variableUtils.ts` (type inference, color parsing,
    variable store operations),
  * `src/plugin/handlers/syncHandler.ts` (the three-pass reconciliation).

JavaScript numbers are modelled as `Option ℚ` (`none` = `NaN`; rationals
stand in for IEEE doubles — every numeric literal of the sources except
`2.55` is exactly representable, and `2.55` is embedded as its exact
double value).  JavaScript strings are Lean `String`s; the handful of
regular expressions in the sources are translated into equivalent
explicit recognizers.  The Figma plugin host (variable store) is
modelled as an explicit heap of variable records; JavaScript arrays of
`Variable` references are lists of heap ids.
-/

namespace SyncSpec

/-! ## JavaScript number layer

Finite JavaScript numbers are exact rationals here (rationals stand in
for IEEE doubles; every numeric literal of the sources except `2.55` is
exactly representable).  `JQ` is a kernel-computable normalized
numerator/denominator pair — Mathlib's `ℚ` has `@[irreducible]`
arithmetic, which would make the concrete witnesses non-evaluable. -/

/-- A normalized rational: `den > 0` and `gcd |num| den = 1` hold for
every value built by the smart constructors below, so structural
equality is numeric equality. -/
structure JQ where
  num : ℤ
  den : ℕ
deriving DecidableEq, Repr

/-- Normalizing constructor (`d = 0` never arises in the sources and is
mapped to `0`). -/
def mkJQ (n d : ℤ) : JQ :=
  if d = 0 then ⟨0, 1⟩
  else
    let s : ℤ := if d < 0 then -1 else 1
    let n := s * n
    let d := (s * d).toNat
    let g := Nat.gcd n.natAbs d
    ⟨n / (g : ℤ), d / g⟩

def qadd (a b : JQ) : JQ := mkJQ (a.num * b.den + b.num * a.den) (a.den * b.den)
def qsub (a b : JQ) : JQ := mkJQ (a.num * b.den - b.num * a.den) (a.den * b.den)
def qmul (a b : JQ) : JQ := mkJQ (a.num * b.num) (a.den * b.den)
def qdiv (a b : JQ) : JQ := mkJQ (a.num * b.den) (a.den * b.num)
def qneg (a : JQ) : JQ := ⟨-a.num, a.den⟩
def qabs (a : JQ) : JQ := ⟨|a.num|, a.den⟩
def qlt (a b : JQ) : Bool := a.num * b.den < b.num * a.den
def qle (a b : JQ) : Bool := a.num * b.den ≤ b.num * a.den
def qfloor (a : JQ) : ℤ := Int.fdiv a.num a.den
def qceil (a : JQ) : ℤ := -Int.fdiv (-a.num) a.den
def qOfInt (z : ℤ) : JQ := ⟨z, 1⟩

instance (n : ℕ) : OfNat JQ n := ⟨⟨n, 1⟩⟩
instance : Add JQ := ⟨qadd⟩
instance : Sub JQ := ⟨qsub⟩
instance : Mul JQ := ⟨qmul⟩
instance : Div JQ := ⟨qdiv⟩
instance : Neg JQ := ⟨qneg⟩
instance : Max JQ := ⟨fun a b => if qle a b then b else a⟩
instance : Min JQ := ⟨fun a b => if qle a b then a else b⟩

/-- Powers of ten with integer exponent. -/
def qpow10 (e : ℤ) : JQ :=
  match e with
  | .ofNat k => ⟨(10 : ℤ) ^ k, 1⟩
  | .negSucc k => ⟨1, 10 ^ (k + 1)⟩

/-- A JavaScript number.  `none` models `NaN`.  Infinities do not occur on
the modelled code paths and are not represented. -/
abbrev JSNum := Option JQ

def jadd : JSNum → JSNum → JSNum
  | some a, some b => some (a + b)
  | _, _ => none

def jsub : JSNum → JSNum → JSNum
  | some a, some b => some (a - b)
  | _, _ => none

def jmul : JSNum → JSNum → JSNum
  | some a, some b => some (a * b)
  | _, _ => none

/-- Division by a nonzero constant (the only divisions in the sources). -/
def jdivC (a : JSNum) (c : JQ) : JSNum :=
  match a with
  | some a => some (a / c)
  | none => none

/-- JavaScript `<`: any comparison with `NaN` is false. -/
def jlt : JSNum → JSNum → Bool
  | some a, some b => qlt a b
  | _, _ => false

/-- JavaScript `<=`: any comparison with `NaN` is false. -/
def jle : JSNum → JSNum → Bool
  | some a, some b => qle a b
  | _, _ => false

def jmax : JSNum → JSNum → JSNum
  | some a, some b => some (max a b)
  | _, _ => none

def jmin : JSNum → JSNum → JSNum
  | some a, some b => some (min a b)
  | _, _ => none

/-- JavaScript `Math.abs`. -/
def jabs : JSNum → JSNum
  | some a => some (qabs a)
  | none => none

/-- JavaScript `Math.round` (half-up towards `+∞`), as an integer. -/
def jroundInt : JSNum → Option ℤ
  | some a => some (qfloor (a + mkJQ 1 2))
  | none => none

/-- Truncation towards zero, as used by the JavaScript `%` operator. -/
def qtrunc (q : JQ) : ℤ := if qle 0 q then qfloor q else qceil q

/-- JavaScript remainder `a % b` for a nonzero constant modulus
(sign follows the dividend). -/
def jmodC (a : JSNum) (m : JQ) : JSNum :=
  match a with
  | some a => some (a - m * qOfInt (qtrunc (a / m)))
  | none => none

/-- The exact IEEE-754 double value of the literal `2.55`
(`pctToByte` multiplies by it; `50 * 2.55 < 127.5` in doubles, which the
repository's own tests rely on).  The numerator is odd, so the pair is
normalized. -/
def double255 : JQ := ⟨2871044762448691, 1125899906842624⟩

/-! ## JavaScript string helpers -/

/-- JavaScript whitespace (the ASCII part; the sources never see the
Unicode spaces). -/
def isJsWs (c : Char) : Bool :=
  c = ' ' || c = '\t' || c = '\n' || c = '\r' || c = '\x0b' || c = '\x0c'

def jsTrimList (cs : List Char) : List Char :=
  ((cs.dropWhile isJsWs).reverse.dropWhile isJsWs).reverse

/-- JavaScript `String.prototype.trim` (ASCII whitespace). -/
def jsTrim (s : String) : String := ⟨jsTrimList s.data⟩

/-- Kernel-evaluable replacements for the byte-position-based core
`String` primitives (`startsWith`, `endsWith`, `drop`, `dropRight`). -/
def jsStartsWith (s pre : String) : Bool := pre.data.isPrefixOf s.data

def jsEndsWithStr (s suffix : String) : Bool := suffix.data.isSuffixOf s.data

def jsDropN (s : String) (n : Nat) : String := ⟨s.data.drop n⟩

def jsDropRightN (s : String) (n : Nat) : String := ⟨s.data.take (s.data.length - n)⟩

def isHexDigit (c : Char) : Bool :=
  c.isDigit || ('a' ≤ c && c ≤ 'f') || ('A' ≤ c && c ≤ 'F')

def hexDigitVal (c : Char) : Nat :=
  if c.isDigit then c.toNat - '0'.toNat
  else if 'a' ≤ c && c ≤ 'f' then c.toNat - 'a'.toNat + 10
  else if 'A' ≤ c && c ≤ 'F' then c.toNat - 'A'.toNat + 10
  else 0

def hexListVal (cs : List Char) : Nat :=
  cs.foldl (fun acc c => acc * 16 + hexDigitVal c) 0

/-- JavaScript `parseInt(s, 16)` for all-hex-digit input. -/
def parseHex (s : String) : Nat := hexListVal s.data

def digitsVal (cs : List Char) : Nat :=
  cs.foldl (fun acc c => acc * 10 + (c.toNat - '0'.toNat)) 0

/-- Value of a decimal fraction part: `.d₁…dₙ`. -/
def fracVal (cs : List Char) : JQ :=
  mkJQ (digitsVal cs) ((10 : ℤ) ^ cs.length)

/-- Numeric value of `intPart.fracPart`. -/
def decValue (intPart fracPart : List Char) : JQ :=
  qOfInt (digitsVal intPart) + fracVal fracPart

/-- JavaScript `parseFloat`: longest numeric prefix after leading
whitespace; `NaN` when no digits are found.  Exponent suffixes are
consumed only when well-formed, matching `parseFloat`'s
longest-valid-prefix rule. -/
def jsParseFloatList (cs : List Char) : JSNum :=
  let cs := cs.dropWhile isJsWs
  let (sign, cs) :=
    match cs with
    | '-' :: rest => ((-1 : ℤ), rest)
    | '+' :: rest => ((1 : ℤ), rest)
    | _ => ((1 : ℤ), cs)
  let intPart := cs.takeWhile Char.isDigit
  let cs := cs.drop intPart.length
  let (fracPart, cs) :=
    match cs with
    | '.' :: rest => (rest.takeWhile Char.isDigit, rest.drop (rest.takeWhile Char.isDigit).length)
    | _ => ([], cs)
  if intPart.isEmpty && fracPart.isEmpty then none
  else
    let base := decValue intPart fracPart
    let expo : ℤ :=
      match cs with
      | 'e' :: rest | 'E' :: rest =>
        let (esign, rest) :=
          match rest with
          | '-' :: r => ((-1 : ℤ), r)
          | '+' :: r => ((1 : ℤ), r)
          | _ => ((1 : ℤ), rest)
        let eds := rest.takeWhile Char.isDigit
        if eds.isEmpty then 0 else esign * (digitsVal eds : ℤ)
      | _ => 0
    some (qOfInt sign * base * qpow10 expo)

def jsParseFloat (s : String) : JSNum := jsParseFloatList s.data

/-- JavaScript `Number(string)`: trims, the empty string is `0`, otherwise
the whole string must be numeric (decimal, optionally signed, with
optional fraction and exponent, or `0x` hex), else `NaN`.
(`Infinity` and binary/octal literals do not occur in the modelled data
and are not represented; they fall to `NaN` here.) -/
def jsNumberList (cs : List Char) : JSNum :=
  let cs := jsTrimList cs
  if cs.isEmpty then some 0
  else
    match cs with
    | '0' :: 'x' :: rest | '0' :: 'X' :: rest =>
      if !rest.isEmpty && rest.all isHexDigit then some (qOfInt (hexListVal rest)) else none
    | _ =>
      let (sign, cs) :=
        match cs with
        | '-' :: rest => ((-1 : ℤ), rest)
        | '+' :: rest => ((1 : ℤ), rest)
        | _ => ((1 : ℤ), cs)
      let intPart := cs.takeWhile Char.isDigit
      let cs := cs.drop intPart.length
      let (fracPart, cs) :=
        match cs with
        | '.' :: rest => (rest.takeWhile Char.isDigit, rest.drop (rest.takeWhile Char.isDigit).length)
        | _ => ([], cs)
      if intPart.isEmpty && fracPart.isEmpty then none
      else
        let (expoOk, expo, cs) :=
          match cs with
          | 'e' :: rest | 'E' :: rest =>
            let (esign, rest) :=
              match rest with
              | '-' :: r => ((-1 : ℤ), r)
              | '+' :: r => ((1 : ℤ), r)
              | _ => ((1 : ℤ), rest)
            let eds := rest.takeWhile Char.isDigit
            (!eds.isEmpty, esign * (digitsVal eds : ℤ), rest.drop eds.length)
          | _ => (true, 0, cs)
        if cs.isEmpty && expoOk then some (qOfInt sign * decValue intPart fracPart * qpow10 expo)
        else none

def jsNumber (s : String) : JSNum := jsNumberList s.data

/-- JavaScript `String.prototype.includes` (for a nonempty needle). -/
def listHasSub (sub : List Char) : List Char → Bool
  | [] => sub.isEmpty
  | c :: rest =>
    if sub.isPrefixOf (c :: rest) then true else listHasSub sub rest

def jsIncludes (s needle : String) : Bool := listHasSub needle.data s.data

/-- JavaScript `split` with a nonempty literal separator `c0 :: sepRest`
(keeps empty pieces, like `"a//b".split("/") = ["a","","b"]`).  The fuel
argument makes the recursion structural (hence kernel-evaluable); any
fuel of at least the list's length is enough, and the wrappers always
supply it. -/
def splitLitCore (c0 : Char) (sepRest : List Char) : Nat → List Char → List (List Char)
  | 0, cs => [cs]
  | _ + 1, [] => [[]]
  | fuel + 1, c :: rest =>
    if (c0 :: sepRest).isPrefixOf (c :: rest) then
      [] :: splitLitCore c0 sepRest fuel (rest.drop sepRest.length)
    else
      match splitLitCore c0 sepRest fuel rest with
      | [] => [[c]]
      | p :: ps => (c :: p) :: ps

def jsSplitLit (s sep : String) : List String :=
  match sep.data with
  | [] => [s]
  | c0 :: sepRest => (splitLitCore c0 sepRest s.data.length s.data).map fun cs => ⟨cs⟩

/-- JavaScript `split` on a regex character-class run `/[cls]+/`
(collapses runs, keeps boundary empties: `",a".split(/[,]+/) = ["","a"]`).
Fueled like `splitLitCore`. -/
def splitClassCore (cls : Char → Bool) : Nat → List Char → List (List Char)
  | 0, cs => [cs]
  | _ + 1, [] => [[]]
  | fuel + 1, c :: rest =>
    if cls c then
      [] :: splitClassCore cls fuel (rest.dropWhile cls)
    else
      match splitClassCore cls fuel rest with
      | [] => [[c]]
      | p :: ps => (c :: p) :: ps

def jsSplitClass (cls : Char → Bool) (s : String) : List String :=
  (splitClassCore cls s.data.length s.data).map fun cs => ⟨cs⟩

/-- The character class `[ ,]` used to split rgb()-style channel lists. -/
def isSpaceComma (c : Char) : Bool := c = ' ' || c = ','

/-- The character class `[\/:>]` used by the path normalizers. -/
def isPathSep (c : Char) : Bool := c = '/' || c = ':' || c = '>'

def asciiToUpper (s : String) : String := ⟨s.data.map Char.toUpper⟩

def asciiToLower (s : String) : String := ⟨s.data.map Char.toLower⟩

/-- JavaScript `padStart(2, '0')`. -/
def padStart2 (s : String) : String :=
  if s.length ≥ 2 then s else ⟨List.replicate (2 - s.length) '0' ++ s.data⟩

/-- JavaScript `(n).toString(16)` for a nonnegative integer (lower case). -/
def natToHexString (n : Nat) : String := ⟨Nat.toDigits 16 n⟩

/-- Rendering of a JavaScript number by `String(...)` / template literals.
Exact for `NaN`, integers and terminating decimals (the only numbers the
modelled data produces); other rationals are cut off after 12 decimals. -/
def jsNumToString (n : JSNum) : String :=
  match n with
  | none => "NaN"
  | some q =>
    let sign := if qlt q 0 then "-" else ""
    let q := qabs q
    let ip : Nat := (qfloor q).toNat
    let fr : JQ := q - qOfInt ip
    if fr = 0 then sign ++ toString ip
    else
      let scaled : Nat := (qfloor (fr * qOfInt ((10 : ℤ) ^ (12 : ℕ)))).toNat
      let digits : String := toString scaled
      let digits : String := ⟨List.replicate (12 - digits.length) '0' ++ digits.data⟩
      let digits : String := ⟨(digits.data.reverse.dropWhile (· = '0')).reverse⟩
      sign ++ toString ip ++ "." ++ digits

/-! ## Values

A runtime JavaScript value as it flows through the sync engine: the
`NotionVariable.value` union `string | number | boolean | {r,g,b,a}`,
extended with the Figma `VariableAlias` object that `updateVariable`
writes and `getExistingVariables` reads back. -/

structure RGBA where
  r : JSNum
  g : JSNum
  b : JSNum
  a : JSNum
deriving DecidableEq, Repr

inductive JsValue
  | str (s : String)
  | num (n : JSNum)
  | bool (b : Bool)
  | rgba (c : RGBA)
  | alias (id : Nat)
deriving DecidableEq, Repr

/-- JavaScript truthiness of the modelled values. -/
def jsTruthy : JsValue → Bool
  | .str s => !s.isEmpty
  | .num (some q) => q ≠ 0
  | .num none => false
  | .bool b => b
  | .rgba _ => true
  | .alias _ => true

/-- JavaScript `String(v)` / template-literal rendering of the modelled
values (alias objects never reach a string context in the sources). -/
def jsValueToString : JsValue → String
  | .str s => s
  | .num n => jsNumToString n
  | .bool b => if b then "true" else "false"
  | .rgba _ => "[object Object]"
  | .alias _ => "[object Object]"

/-! ## ColorCodec (`src/ui/services/notionTransform.ts`) -/

/-- `toHex`: `Math.max(0, Math.min(255, Math.round(n))).toString(16).padStart(2, '0')`.
For `NaN` the JavaScript chain yields the string `"NaN"`. -/
def toHex (n : JSNum) : String :=
  match jroundInt n with
  | none => "NaN"
  | some z => padStart2 (natToHexString (max 0 (min 255 z)).toNat)

/-- `pctToByte`: `Math.round(Math.max(0, Math.min(100, parseFloat(s))) * 2.55)`
(with `2.55` the exact double). -/
def pctToByte (s : String) : JSNum :=
  let p := jsParseFloat s
  (jroundInt (jmul (jmax (some 0) (jmin (some 100) p)) (some double255))).map qOfInt

/-- `hslToRgb`: the hue-sector algorithm of the source, on h ∈ degrees and
s, l ∈ 0..1; returns 0..255 channels. -/
def hslToRgb (h s l : JSNum) : JSNum × JSNum × JSNum :=
  let c := jmul (jsub (some 1) (jabs (jsub (jmul (some 2) l) (some 1)))) s
  let x := jmul c (jsub (some 1) (jabs (jsub (jmodC (jdivC h 60) 2) (some 1))))
  let m := jsub l (jdivC c 2)
  let (r, g, b) :=
    if jle (some 0) h && jlt h (some 60) then (c, x, some 0)
    else if jle (some 60) h && jlt h (some 120) then (x, c, some 0)
    else if jle (some 120) h && jlt h (some 180) then (some 0, c, x)
    else if jle (some 180) h && jlt h (some 240) then (some 0, x, c)
    else if jle (some 240) h && jlt h (some 300) then (x, some 0, c)
    else (c, some 0, x)
  (jmul (jadd r m) (some 255), jmul (jadd g m) (some 255), jmul (jadd b m) (some 255))

/-- Recognizer for `/^#[0-9a-fA-F]{6}([0-9a-fA-F]{2})?$/` without the `#`. -/
def isHex6or8 (cs : List Char) : Bool :=
  (cs.length = 6 || cs.length = 8) && cs.all isHexDigit

def matchesHexHash (s : String) : Bool :=
  match s.data with
  | '#' :: rest => isHex6or8 rest
  | _ => false

def matchesHexBare (s : String) : Bool := isHex6or8 s.data

/-- Recognizer for `/^#([0-9a-fA-F]{3,4})$/`, returning the capture. -/
def matchShortHex (s : String) : Option (List Char) :=
  match s.data with
  | '#' :: rest =>
    if (rest.length = 3 || rest.length = 4) && rest.all isHexDigit then some rest else none
  | _ => none

/-- Recognizer for `/^NAMEa?\(\s*([^\)]+)\)$/i` with a three-letter NAME
(`rgb` or `hsl`): returns the parenthesized interior.  Because the source
always trims the capture, returning the whole interior (whose trim equals
the regex capture's trim) is equivalent. -/
def matchFnCall (c1 c2 c3 : Char) (s : String) : Option String :=
  match s.data with
  | a :: b :: c :: rest =>
    if a.toLower = c1 && b.toLower = c2 && c.toLower = c3 then
      let rest :=
        match rest with
        | x :: r => if x.toLower = 'a' then r else x :: r
        | [] => []
      match rest with
      | '(' :: inner =>
        let body := inner.dropLast
        if inner.getLast? = some ')' && !body.contains ')' && !body.isEmpty then
          some ⟨body⟩
        else none
      | _ => none
    else none
  | _ => none

/-- Run of `[\d.]+` at the head of a character list: the run and the rest,
or `none` when empty. -/
def takeNumDots (cs : List Char) : Option (List Char × List Char) :=
  let run := cs.takeWhile fun c => c.isDigit || c = '.'
  if run.isEmpty then none else some (run, cs.drop run.length)

def dropWs (cs : List Char) : List Char := cs.dropWhile isJsWs

/-- Recognizer for the strict hsl pattern
`/^hsla?\(\s*([\d.]+)\s*,\s*([\d.]+)%\s*,\s*([\d.]+)%\s*(?:,\s*([\d.]+))?\s*\)$/i`:
returns the four captures. -/
def matchHsl (s : String) : Option (String × String × String × Option String) :=
  match s.data with
  | a :: b :: c :: rest =>
    if a.toLower = 'h' && b.toLower = 's' && c.toLower = 'l' then
      let rest :=
        match rest with
        | x :: r => if x.toLower = 'a' then r else x :: r
        | [] => []
      match rest with
      | '(' :: inner => do
        let (h1, cs) ← takeNumDots (dropWs inner)
        let cs := dropWs cs
        let cs ← if cs.head? = some ',' then pure cs.tail else none
        let (h2, cs) ← takeNumDots (dropWs cs)
        let cs ← if cs.head? = some '%' then pure cs.tail else none
        let cs := dropWs cs
        let cs ← if cs.head? = some ',' then pure cs.tail else none
        let (h3, cs) ← takeNumDots (dropWs cs)
        let cs ← if cs.head? = some '%' then pure cs.tail else none
        let cs := dropWs cs
        let (h4, cs) ←
          if cs.head? = some ',' then do
            let (h4, cs) ← takeNumDots (dropWs cs.tail)
            pure ((some (⟨h4⟩ : String) : Option String), cs)
          else pure ((none : Option String), cs)
        let cs := dropWs cs
        if cs = [')'] then some (⟨h1⟩, ⟨h2⟩, ⟨h3⟩, h4) else none
      | _ => none
    else none
  | _ => none

/-- Run of 1–3 digits: fails when the maximal digit run is empty or longer
than 3 (the regex `(\d{1,3})` anchored before a non-digit cannot backtrack
into success on a longer run). -/
def take13Digits (cs : List Char) : Option (List Char × List Char) :=
  let run := cs.takeWhile Char.isDigit
  if run.isEmpty || run.length > 3 then none else some (run, cs.drop run.length)

/-- Recognizer for the plain comma triple
`/^\s*(\d{1,3})\s*,\s*(\d{1,3})\s*,\s*(\d{1,3})(?:\s*,\s*([\d.]+))?\s*$/`. -/
def matchCsv (s : String) : Option (String × String × String × Option String) := do
  let cs := dropWs s.data
  let (d1, cs) ← take13Digits cs
  let cs := dropWs cs
  let cs ← if cs.head? = some ',' then pure cs.tail else none
  let (d2, cs) ← take13Digits (dropWs cs)
  let cs := dropWs cs
  let cs ← if cs.head? = some ',' then pure cs.tail else none
  let (d3, cs) ← take13Digits (dropWs cs)
  let cs := dropWs cs
  if cs.isEmpty then
    some (⟨d1⟩, ⟨d2⟩, ⟨d3⟩, none)
  else if cs.head? = some ',' then do
    let (a4, cs) ← takeNumDots (dropWs cs.tail)
    if (dropWs cs).isEmpty then some (⟨d1⟩, ⟨d2⟩, ⟨d3⟩, some ⟨a4⟩) else none
  else none

/-- Channel computation of the rgb/rgba branch of `normalizeColor` on the
parenthesized interior: split at `/` for the alpha, else positional, with
`%` channels through `pctToByte` and plain channels through `Number`. -/
def rgbChannelsOf (raw0 : String) : JSNum × JSNum × JSNum × JSNum :=
  let raw := jsTrim raw0
  let parseChan : Option String → JSNum := fun x? =>
    match x? with
    | none => none
    | some x => if jsEndsWithStr x "%" then pctToByte x else jsNumber x
  let (rStr, gStr, bStr, aStr) :=
    if jsIncludes raw "/" then
      let pieces := (jsSplitLit raw "/").map jsTrim
      let left := pieces.getD 0 ""
      let aStr := pieces.get? 1
      let parts := (jsSplitClass isSpaceComma left).map jsTrim
      (parts.get? 0, parts.get? 1, parts.get? 2, aStr)
    else
      let parts := (jsSplitClass isSpaceComma raw).map jsTrim
      (parts.get? 0, parts.get? 1, parts.get? 2, parts.get? 3)
  let r := parseChan rStr
  let g := parseChan gStr
  let b := parseChan bStr
  let a :=
    match aStr with
    | none => some 1
    | some aS =>
      if jsEndsWithStr aS "%" then jmax (some 0) (jmin (some 1) (jdivC (jsParseFloat aS) 100))
      else jsNumber aS
  (r, g, b, a)

/-- The shared hex emission of `normalizeColor`:
`` `#${toHex(r)}${toHex(g)}${toHex(b)}${a < 1 ? toHex(a * 255) : ''}` ``. -/
def hexEmit (r g b a : JSNum) : String :=
  "#" ++ toHex r ++ toHex g ++ toHex b ++ (if jlt a (some 1) then toHex (jmul a (some 255)) else "")

/-- The rgb()/rgba() branch: match plus channel computation. -/
def rgbBranch (s : String) : Option (JSNum × JSNum × JSNum × JSNum) :=
  (matchFnCall 'r' 'g' 'b' s).map rgbChannelsOf

/-- The hsl()/hsla() branch: match, parse, convert; yields rgb channels
and the clamped alpha. -/
def hslBranch (s : String) : Option (JSNum × JSNum × JSNum × JSNum) :=
  (matchHsl s).map fun (h1, h2, h3, h4) =>
    let h := jsParseFloat h1
    let S := jdivC (jsParseFloat h2) 100
    let L := jdivC (jsParseFloat h3) 100
    let a :=
      match h4 with
      | some a4 => jmax (some 0) (jmin (some 1) (jsParseFloat a4))
      | none => some 1
    let (r, g, b) := hslToRgb h S L
    (r, g, b, a)

/-- The plain `r,g,b[,a]` branch. -/
def csvBranch (s : String) : Option (JSNum × JSNum × JSNum × JSNum) :=
  (matchCsv s).map fun (d1, d2, d3, a4) =>
    let r := jsNumber d1
    let g := jsNumber d2
    let b := jsNumber d3
    let a :=
      match a4 with
      | some a4 => jsNumber a4
      | none => some 1
    (r, g, b, a)

def shortHexExpand (h : List Char) : String :=
  let r := [h.getD 0 '0', h.getD 0 '0']
  let g := [h.getD 1 '0', h.getD 1 '0']
  let b := [h.getD 2 '0', h.getD 2 '0']
  let a := match h.get? 3 with
    | some c => [c, c]
    | none => []
  ⟨'#' :: (r ++ g ++ b ++ a)⟩

/-- `normalizeColor` (`notionTransform.ts`): normalizes color-like values
to hex; `none` models a `null`/`undefined` argument. -/
def normalizeColor (val : Option JsValue) : JsValue :=
  match val with
  | none => .str ""
  | some (.str v) =>
    let s := jsTrim v
    if matchesHexHash s then .str s
    else if matchesHexBare s then .str ("#" ++ s)
    else
      match matchShortHex s with
      | some h => .str (shortHexExpand h)
      | none =>
        match rgbBranch s with
        | some (r, g, b, a) => .str (hexEmit r g b a)
        | none =>
          match hslBranch s with
          | some (r, g, b, a) => .str (hexEmit r g b a)
          | none =>
            match csvBranch s with
            | some (r, g, b, a) => .str (hexEmit r g b a)
            | none => .str s
  | some (.rgba c) =>
    let r := toHex (jmul c.r (some 255))
    let g := toHex (jmul c.g (some 255))
    let b := toHex (jmul c.b (some 255))
    let a := if jlt c.a (some 1) then toHex (jmul c.a (some 255)) else ""
    .str ("#" ++ r ++ g ++ b ++ a)
  | some v => v

/-! ## FieldExtractor (`extractFromProperty` and friends) -/

/-- One styled run of a Notion title/rich-text value; `plain_text` may be
absent. -/
structure TextRun where
  plain_text : Option String
deriving DecidableEq, Repr

/-- A Notion formula result, dispatched on its own `type`. -/
inductive NotionFormula
  | fstring (s : Option String)
  | fnumber (n : Option JSNum)
  | fboolean (b : Option Bool)
  | fdate (start : Option String)
  | fother
deriving DecidableEq, Repr

/-- One element of a rollup `array` result; the `dump` field stands for
`JSON.stringify(first)`, the final fallback. -/
structure RollItem where
  plain_text : Option String
  rich_text : Option (List TextRun)
  title : Option (List TextRun)
  name : Option String
  dump : String
deriving DecidableEq, Repr

/-- A Notion rollup result, dispatched on its own `type`. -/
inductive NotionRollup
  | rnumber (n : Option JSNum)
  | rdate (start : Option String)
  | rarray (items : Option (List RollItem))
  | rrich (runs : Option (List TextRun))
  | rtitle (runs : Option (List TextRun))
  | rother
deriving DecidableEq, Repr

/-- A Notion page property, dispatched on its declared `type`; `Option`
models `null`/non-array payloads.  `other` is any unrecognized kind. -/
inductive NotionProp
  | title (runs : Option (List TextRun))
  | rich_text (runs : Option (List TextRun))
  | formula (f : Option NotionFormula)
  | number (n : Option JSNum)
  | select (name : Option String)
  | multi_select (opts : Option (List (Option String)))
  | date (start : Option String)
  | rollup (r : Option NotionRollup)
  | relation (ids : Option (List (Option String)))
  | other
deriving DecidableEq, Repr

abbrev NotionProps := List (String × NotionProp)

/-- `extractPlain`: `(Array.isArray(arr) && arr[0]?.plain_text) || ''` —
the first run's text only (this is where the source deviates from its
own tests, which expect concatenation of all runs). -/
def extractPlain (arr : Option (List TextRun)) : String :=
  match arr with
  | some (first :: _) => first.plain_text.getD ""
  | _ => ""

def lookupProp (props : NotionProps) (key : String) : Option NotionProp :=
  (props.find? fun kv => kv.1 = key).map (·.2)

/-- `extractFromProperty` (`notionTransform.ts`): reads one scalar out of a
page's properties; the empty string models every falsy/absent result.
The `key = ""` case models both an `undefined` key and the empty mapped
field name (both falsy). -/
def extractFromProperty (props : Option NotionProps) (key : String) : JsValue :=
  match props with
  | none => .str ""
  | some props =>
    if key = "" then .str ""
    else
      match lookupProp props key with
      | none => .str ""
      | some p =>
        match p with
        | .title runs => .str (extractPlain runs)
        | .rich_text runs => .str (extractPlain runs)
        | .formula f =>
          match f with
          | none => .str ""
          | some (.fstring s) => .str (s.getD "")
          | some (.fnumber n) =>
            match n with
            | none => .str ""
            | some v => .num v
          | some (.fboolean b) => .str (if b.getD false then "true" else "false")
          | some (.fdate start) => .str (start.getD "")
          | some .fother => .str ""
        | .number n =>
          match n with
          | none => .str ""
          | some v => .num v
        | .select name => .str (name.getD "")
        | .multi_select opts =>
          match opts with
          | none => .str ""
          | some items =>
            .str (String.intercalate ", " ((items.map fun o => o.getD "").filter fun s => !s.isEmpty))
        | .date start => .str (start.getD "")
        | .rollup r =>
          match r with
          | none => .str ""
          | some (.rnumber n) =>
            match n with
            | none => .str ""
            | some v => .num v
          | some (.rdate start) => .str (start.getD "")
          | some (.rarray items) =>
            match items with
            | some (first :: _) =>
              let viaPlain := first.plain_text.getD ""
              if !viaPlain.isEmpty then .str viaPlain
              else
                let viaRich := extractPlain first.rich_text
                if !viaRich.isEmpty then .str viaRich
                else
                  let viaTitle := extractPlain first.title
                  if !viaTitle.isEmpty then .str viaTitle
                  else
                    let viaName := first.name.getD ""
                    if !viaName.isEmpty then .str viaName
                    else .str first.dump
            | _ => .str ""
          | some (.rrich runs) => .str (extractPlain runs)
          | some (.rtitle runs) => .str (extractPlain runs)
          | some .rother => .str ""
        | .relation _ => .str ""
        | .other => .str ""

/-- `sanitizePath`: split on runs of `/ : >`, trim, drop empties, rejoin. -/
def sanitizePath (p : String) : String :=
  String.intercalate "/" (((jsSplitClass isPathSep p).map jsTrim).filter fun s => !s.isEmpty)

/-- `sanitizeName`: trim only. -/
def sanitizeName (n : String) : String := jsTrim n

/-! ## TokenTransformer (`transformNotionResponse`) -/

/-- JavaScript `a || b` on values. -/
def jsOr (a b : JsValue) : JsValue := if jsTruthy a then a else b

/-- `sanitizeName` applied to an arbitrary value: a non-string argument
makes `.trim()` throw a `TypeError` (there is no try/catch around the
top-level name/group extraction). -/
def sanitizeNameJ : JsValue → Except String String
  | .str s => .ok (jsTrim s)
  | _ => .error "TypeError: trim is not a function"

/-- `sanitizePath` applied to an arbitrary value (`.split` on a
non-string throws). -/
def sanitizePathJ : JsValue → Except String String
  | .str s => .ok (sanitizePath s)
  | _ => .error "TypeError: split is not a function"

/-- JavaScript `Map.prototype.get` over an insertion list where later
`set`s of a key override earlier ones. -/
def jsMapGet {α : Type} (l : List (String × α)) (k : String) : Option α :=
  (l.reverse.find? fun kv => kv.1 = k).map (·.2)

/-- A raw Notion page as the transformer sees it (the loose `any` record:
`properties` plus the direct fallback fields the code also probes). -/
structure NotionPage where
  id : Option String
  name : Option String
  group : Option String
  description : Option String
  properties : Option NotionProps
deriving DecidableEq, Repr

/-- The canonical token produced by the transformer and consumed by the
reconciliation handler.  `type` is the runtime string (possibly empty =
undefined, possibly not one of the four legal names); `description` and
`group` use the empty-as-absent convention; `value` is the runtime
union. -/
structure NotionVariable where
  id : String
  name : String
  value : JsValue
  type : String
  description : JsValue
  group : String
deriving DecidableEq, Repr

inductive VariableProperty
  | name | value | type | description | group | unit
deriving DecidableEq, Repr

structure FieldMapping where
  notionField : String
  variableProperty : VariableProperty
deriving DecidableEq, Repr

/-- `getNotionFieldName`. -/
def getNotionFieldName (mappings : Option (List FieldMapping)) (vp : VariableProperty)
    (dflt : String) : String :=
  match mappings with
  | none => dflt
  | some ms =>
    if ms.isEmpty then dflt
    else
      match ms.find? fun m => m.variableProperty = vp with
      | none => dflt
      | some m => if m.notionField = "" then dflt else m.notionField

/-- `readValueFromPage`: probe `Value`, `ValueRollup`, `Hex`, `Color`,
`Name` in that order. -/
def readValueFromPage (pageObj : Option NotionPage) : JsValue :=
  let p := (pageObj.bind (·.properties)).getD []
  let v := extractFromProperty (some p) "Value"
  let v := if jsTruthy v then v else extractFromProperty (some p) "ValueRollup"
  let v := if jsTruthy v then v else extractFromProperty (some p) "Hex"
  let v := if jsTruthy v then v else extractFromProperty (some p) "Color"
  let v := if jsTruthy v then v else extractFromProperty (some p) "Name"
  v

/-- Recognizer for `/^\{[^}]+\}$/`, returning the interior (which may
contain `{`). -/
def matchBracedOnly (s : String) : Option String :=
  match s.data with
  | '{' :: rest =>
    let body := rest.dropLast
    if rest.getLast? = some '}' && !body.contains '}' && !body.isEmpty then some ⟨body⟩
    else none
  | _ => none

/-- Per-run transformer state: the relation-page cache and the ordered
list of ids that were successfully fetched from the document store
(a failed fetch transfers nothing and caches nothing). -/
structure FetchState where
  pageCache : List (String × NotionPage)
  fetched : List String
deriving DecidableEq, Repr

/-- One `fetchNotionPage` call against the external store `db`. -/
def fetchPage (db : String → Option NotionPage) (id : String) (fs : FetchState) :
    Except String (NotionPage × FetchState) :=
  match db id with
  | some pg => .ok (pg, { fs with fetched := fs.fetched ++ [id] })
  | none => .error "fetch failed"

/-- The `pageCache.get / fetch / pageCache.set` pattern shared by the
three resolution sites. -/
def cachedFetch (db : String → Option NotionPage) (id : String) (fs : FetchState) :
    Except String (NotionPage × FetchState) :=
  match (fs.pageCache.find? fun kv => kv.1 = id).map (·.2) with
  | some pg => .ok (pg, fs)
  | none =>
    match fetchPage db id fs with
    | .ok (pg, fs) => .ok (pg, { fs with pageCache := fs.pageCache ++ [(id, pg)] })
    | .error e => .error e

/-- The first relation id of a property:
`valueProp?.type === 'relation' && Array.isArray(valueProp.relation) && valueProp.relation[0]?.id`,
as an `Option` (`none` = falsy). -/
def firstRelationId (valueProp : Option NotionProp) : Option String :=
  match valueProp with
  | some (.relation (some (first :: _))) =>
    match first with
    | some id => if id = "" then none else some id
    | none => none
  | _ => none

/-- Resolution of the related page's name/group/direct value used by the
rollup-alias branch; mirrors the try/catch: any failure restores the
initial `aliasTarget`/`fallbackHex` but keeps the cache state reached so
far. -/
def resolveRollupTarget (db : String → Option NotionPage) (nameKey groupKey : String)
    (interior : String) (relId : Option String) (fs : FetchState) :
    FetchState × String × JsValue :=
  match relId with
  | none => (fs, interior, .str "")
  | some rid =>
    match cachedFetch db rid fs with
    | .error _ => (fs, interior, .str "")
    | .ok (related, fs) =>
      let relatedProps := related.properties.getD []
      match sanitizeNameJ (jsOr (extractFromProperty (some relatedProps) nameKey)
          (jsOr (.str (related.name.getD "")) (.str ""))) with
      | .error _ => (fs, interior, .str "")
      | .ok relatedName =>
        match sanitizePathJ (jsOr (extractFromProperty (some relatedProps) groupKey)
            (jsOr (.str (related.group.getD "")) (.str ""))) with
        | .error _ => (fs, interior, .str "")
        | .ok relatedGroup =>
          let aliasTarget :=
            if relatedName ≠ "" then
              if relatedGroup ≠ "" then relatedGroup ++ "/" ++ relatedName else relatedName
            else interior
          let direct := readValueFromPage (some related)
          let fallbackHex := normalizeColor (some direct)
          (fs, aliasTarget, fallbackHex)

/-- Resolution of a bare relation value (the `!value` branch); mirrors its
try/catch and the same-batch index consultation.  Returns the new value,
whether it is an alias, and the state. -/
def resolveRelationValue (db : String → Option NotionPage) (nameKey groupKey : String)
    (pageIdToVarName : List (String × String)) (rid : String) (value0 : JsValue)
    (fs : FetchState) : FetchState × JsValue × Bool :=
  let indexHit := (jsMapGet pageIdToVarName rid).getD ""
  if indexHit ≠ "" then
    (fs, .str ("\x7b" ++ indexHit ++ "\x7d"), true)
  else
    match cachedFetch db rid fs with
    | .error _ => (fs, value0, false)
    | .ok (related, fs) =>
      let relatedProps := related.properties.getD []
      match sanitizeNameJ (jsOr (extractFromProperty (some relatedProps) nameKey)
          (jsOr (.str (related.name.getD "")) (.str ""))) with
      | .error _ => (fs, value0, false)
      | .ok relatedName =>
        match sanitizePathJ (jsOr (extractFromProperty (some relatedProps) groupKey)
            (jsOr (.str (related.group.getD "")) (.str ""))) with
        | .error _ => (fs, value0, false)
        | .ok relatedGroup =>
          let aliasTarget :=
            if relatedGroup ≠ "" then relatedGroup ++ "/" ++ relatedName else relatedName
          if aliasTarget ≠ "" then
            (fs, .str ("\x7b" ++ aliasTarget ++ "\x7d"), true)
          else
            match cachedFetch db rid fs with
            | .error _ => (fs, value0, false)
            | .ok (relatedPage, fs) => (fs, readValueFromPage (some relatedPage), false)

/-- Transformation of a single raw page into a `NotionVariable`
(the body of the `for (const page of raw)` loop). -/
def transformPage (db : String → Option NotionPage)
    (nameKey valueFallbackKey typeKey groupKey descKey unitKey : String)
    (pageIdToVarName : List (String × String)) (page : NotionPage) (fs : FetchState) :
    Except String (NotionVariable × FetchState) := do
  let props := page.properties.getD []
  let rawName := jsOr (extractFromProperty (some props) nameKey)
    (jsOr (.str (page.name.getD "")) (.str "Untitled"))
  let name ← sanitizeNameJ rawName
  let value0 := extractFromProperty (some props) "ValueRollup"
  let value0 :=
    if jsTruthy value0 then value0 else extractFromProperty (some props) valueFallbackKey
  let valueProp := lookupProp props valueFallbackKey
  let (fs, value1, isAlias) :=
    match value0 with
    | .str vs =>
      match matchBracedOnly vs with
      | some interior =>
        let relId := firstRelationId valueProp
        let (fs, aliasTarget, fallbackHex) :=
          resolveRollupTarget db nameKey groupKey interior relId fs
        let v : JsValue :=
          if jsTruthy fallbackHex then
            .str ("\x7b" ++ aliasTarget ++ "\x7d||" ++ jsValueToString fallbackHex)
          else .str ("\x7b" ++ aliasTarget ++ "\x7d")
        (fs, v, true)
      | none => (fs, value0, false)
    | _ => (fs, value0, false)
  let (fs, value2, isAlias) :=
    if !jsTruthy value1 then
      match valueProp with
      | some (.relation rel) =>
        match firstRelationId (some (.relation rel)) with
        | some rid => resolveRelationValue db nameKey groupKey pageIdToVarName rid value1 fs
        | none => (fs, value1, isAlias)
      | _ => (fs, value1, isAlias)
    else (fs, value1, isAlias)
  let value3 := if !isAlias then normalizeColor (some value2) else value2
  let type := asciiToUpper (jsValueToString (jsOr (extractFromProperty (some props) typeKey) (.str "")))
  let group ← sanitizePathJ (jsOr (extractFromProperty (some props) groupKey)
    (jsOr (.str (page.group.getD "")) (.str "")))
  let description := jsOr (extractFromProperty (some props) descKey)
    (jsOr (.str (page.description.getD "")) (.str ""))
  let description :=
    if unitKey ≠ "" then
      let unit := jsOr (extractFromProperty (some props) unitKey) (.str "")
      if jsTruthy unit then
        if jsTruthy description then
          JsValue.str (jsValueToString description ++ " [" ++ jsValueToString unit ++ "]")
        else JsValue.str ("[" ++ jsValueToString unit ++ "]")
      else description
    else description
  let item : NotionVariable :=
    { id := page.id.getD "crypto-random-uuid"
      name := name
      value := value3
      type := type
      description := description
      group := group }
  .ok (item, fs)

/-- The pre-pass that estimates each page's final variable name
(`pageIdToVarName`); later pages override earlier ids via `Map.set`. -/
def buildPageIdIndex (nameKey groupKey : String) :
    List NotionPage → Except String (List (String × String))
  | [] => .ok []
  | p :: rest => do
    let props0 := p.properties.getD []
    let g0 ← sanitizePathJ (jsOr (extractFromProperty (some props0) groupKey)
      (jsOr (.str (p.group.getD "")) (.str "")))
    let n0 ← sanitizeNameJ (jsOr (extractFromProperty (some props0) nameKey)
      (jsOr (.str (p.name.getD "")) (.str "Untitled")))
    let vn0 := if g0 ≠ "" then g0 ++ "/" ++ n0 else n0
    let tail ← buildPageIdIndex nameKey groupKey rest
    match p.id with
    | some pid => .ok ((pid, vn0) :: tail)
    | none => .ok tail

/-- The page loop; an uncaught throw stops the run but the fetch state
reached so far is reported (for the never-fetch-twice analysis). -/
def transformLoop (db : String → Option NotionPage)
    (nameKey valueFallbackKey typeKey groupKey descKey unitKey : String)
    (pageIdToVarName : List (String × String)) :
    List NotionPage → FetchState → List NotionVariable →
    Except String (List NotionVariable) × FetchState
  | [], fs, acc => (.ok acc, fs)
  | page :: rest, fs, acc =>
    match transformPage db nameKey valueFallbackKey typeKey groupKey descKey unitKey
        pageIdToVarName page fs with
    | .ok (item, fs) =>
      transformLoop db nameKey valueFallbackKey typeKey groupKey descKey unitKey
        pageIdToVarName rest fs (acc ++ [item])
    | .error e => (.error e, fs)

/-- `transformNotionResponse`: keys from the mapping table, the id index
built once per batch, then the sequential page loop.  The pre-pass order
in the source builds the index before any page is transformed. -/
def transformNotionResponse (db : String → Option NotionPage) (raw : List NotionPage)
    (mappings : Option (List FieldMapping)) :
    Except String (List NotionVariable) × FetchState :=
  let nameKey := getNotionFieldName mappings .name "Name"
  let valueFallbackKey := getNotionFieldName mappings .value "Value"
  let typeKey := getNotionFieldName mappings .type "Type"
  let groupKey := getNotionFieldName mappings .group "Group"
  let descKey := getNotionFieldName mappings .description "Description"
  let unitKey := getNotionFieldName mappings .unit ""
  match buildPageIdIndex nameKey groupKey raw with
  | .error e => (.error e, ⟨[], []⟩)
  | .ok idx =>
    transformLoop db nameKey valueFallbackKey typeKey groupKey descKey unitKey idx raw ⟨[], []⟩ []

/-! ## TypeInferencer (`detectVariableType`, `variableUtils.ts`) -/

/-- Recognizer for the strict (case-sensitive) pattern
`/^rgba?\(\s*\d+\s*,\s*\d+\s*,\s*\d+\s*(,\s*[\d.]+)?\s*\)$/`. -/
def matchesRgbStrict (s : String) : Bool :=
  let step : List Char → Option (List Char) := fun cs => do
    let ds := (dropWs cs).takeWhile Char.isDigit
    if ds.isEmpty then none else some ((dropWs cs).drop ds.length)
  let result : Option Unit := do
    let cs ←
      match s.data with
      | 'r' :: 'g' :: 'b' :: 'a' :: '(' :: rest => some rest
      | 'r' :: 'g' :: 'b' :: '(' :: rest => some rest
      | _ => none
    let cs ← step cs
    let cs := dropWs cs
    let cs ← if cs.head? = some ',' then pure cs.tail else none
    let cs ← step cs
    let cs := dropWs cs
    let cs ← if cs.head? = some ',' then pure cs.tail else none
    let cs ← step cs
    let cs := dropWs cs
    let cs ←
      if cs.head? = some ',' then do
        let (_, cs) ← takeNumDots (dropWs cs.tail)
        pure cs
      else pure cs
    let cs := dropWs cs
    if cs = [')'] then some () else none
  result.isSome

/-- The unit suffixes of `numberWithUnitPattern`. -/
def unitSuffixes : List String :=
  ["px", "rem", "em", "%", "pt", "vh", "vw", "vmin", "vmax", "ch", "ex",
   "cm", "mm", "in", "pc", "deg", "rad", "turn", "s", "ms"]

/-- Recognizer for `/^-?[\d.]+\s*(px|rem|…|ms)$/i` (applied to the trimmed
value). -/
def matchesNumberWithUnit (s : String) : Bool :=
  let cs := s.data
  let cs := match cs with
    | '-' :: rest => rest
    | _ => cs
  match takeNumDots cs with
  | none => false
  | some (_, rest) =>
    let unit := asciiToLower ⟨dropWs rest⟩
    unitSuffixes.contains unit

/-- `detectVariableType`: the fixed-precedence type inference.  Result is
the runtime type string. -/
def detectVariableType (value : JsValue) : String :=
  match value with
  | .bool _ => "BOOLEAN"
  | .num _ => "NUMBER"
  | .str v =>
    if matchesHexHash v || matchesRgbStrict v then "COLOR"
    else if (jsNumber v).isSome && jsTrim v ≠ "" then "NUMBER"
    else if matchesNumberWithUnit (jsTrim v) then "NUMBER"
    else if asciiToLower v = "true" || asciiToLower v = "false" then "BOOLEAN"
    else "STRING"
  | _ => "STRING"

/-! ## Plugin-side color parsing (`parseColor`, `variableUtils.ts`) -/

/-- Hex pair at positions `i, i+1` of a character list, as a 0–255 value. -/
def hexPairAt (cs : List Char) (i : Nat) : Nat :=
  hexListVal [cs.getD i '0', cs.getD (i + 1) '0']

/-- `parseColor`: parse a color value into 0..1 `RGBA` channels;
anything unrecognized falls back to opaque black. -/
def parseColor (value : JsValue) : RGBA :=
  match value with
  | .rgba c =>
    let a := match c.a with
      | some q => if q = 0 then some 1 else some q
      | none => some 1
    ⟨c.r, c.g, c.b, a⟩
  | .str v =>
    if matchesHexHash v then
      let hx := v.data.drop 1
      let r := mkJQ (hexPairAt hx 0) 255
      let g := mkJQ (hexPairAt hx 2) 255
      let b := mkJQ (hexPairAt hx 4) 255
      let a : JQ := if hx.length = 8 then mkJQ (hexPairAt hx 6) 255 else 1
      ⟨some r, some g, some b, some a⟩
    else
      match matchShortHex v with
      | some h =>
        let dup : Char → JQ := fun c => mkJQ (hexListVal [c, c]) 255
        let a : JQ := match h.get? 3 with
          | some c => dup c
          | none => 1
        ⟨some (dup (h.getD 0 '0')), some (dup (h.getD 1 '0')), some (dup (h.getD 2 '0')), some a⟩
      | none =>
        match matchFnCall 'r' 'g' 'b' v with
        | some raw0 =>
          let raw := jsTrim raw0
          let chan : Option String → JSNum := fun x? =>
            match x? with
            | none => none
            | some x =>
              if jsEndsWithStr x "%" then jmax (some 0) (jmin (some 1) (jdivC (jsParseFloat x) 100))
              else jdivC (jsNumber x) 255
          let (rStr, gStr, bStr, aStr) :=
            if jsIncludes raw "/" then
              let pieces := (jsSplitLit raw "/").map jsTrim
              let left := pieces.getD 0 ""
              let parts := (jsSplitClass isSpaceComma left).map jsTrim
              (parts.get? 0, parts.get? 1, parts.get? 2, pieces.get? 1)
            else
              let parts := (jsSplitClass isSpaceComma raw).map jsTrim
              (parts.get? 0, parts.get? 1, parts.get? 2, parts.get? 3)
          let or0 : JSNum → JSNum := fun n =>
            match n with
            | some q => some q
            | none => some 0
          let r := or0 (chan rStr)
          let g := or0 (chan gStr)
          let b := or0 (chan bStr)
          let a : JSNum :=
            match aStr with
            | none => some 1
            | some aS =>
              if aS = "" then some 1
              else if jsEndsWithStr aS "%" then jmax (some 0) (jmin (some 1) (jdivC (jsParseFloat aS) 100))
              else jmax (some 0) (jmin (some 1) (jsParseFloat aS))
          ⟨r, g, b, a⟩
        | none => ⟨some 0, some 0, some 0, some 1⟩
  | _ => ⟨some 0, some 0, some 0, some 1⟩

/-! ## Variable store model (the Figma plugin host) -/

inductive FigmaVarType
  | COLOR | FLOAT | STRING | BOOLEAN
deriving DecidableEq, Repr

/-- `convertToFigmaVariableType` on the runtime type string. -/
def convertToFigmaVariableType (type : String) : FigmaVarType :=
  if type = "COLOR" then .COLOR
  else if type = "NUMBER" then .FLOAT
  else if type = "STRING" then .STRING
  else if type = "BOOLEAN" then .BOOLEAN
  else .STRING

/-- One Figma variable object.  `value` is the single-mode
`valuesByMode[modeId]` slot (every collection in the modelled runs has
exactly one mode).  A removed variable keeps its fields readable (the
JavaScript object persists in stale array references) but rejects
further mutation. -/
structure FigmaVariable where
  id : Nat
  name : String
  variableCollectionId : String
  resolvedType : FigmaVarType
  value : JsValue
  description : JsValue
  removed : Bool
deriving DecidableEq, Repr

structure VariableCollection where
  id : String
  name : String
deriving DecidableEq, Repr

/-- The variable-store heap: collections, all variable objects ever
created (in creation order, removed ones flagged), and the fresh-id
counter. -/
structure FigmaState where
  collections : List VariableCollection
  vars : List FigmaVariable
  nextId : Nat
deriving DecidableEq, Repr

def getVar (st : FigmaState) (id : Nat) : Option FigmaVariable :=
  st.vars.find? fun v => v.id = id

def liveVars (st : FigmaState) : List FigmaVariable :=
  st.vars.filter fun v => !v.removed

/-- `figma.variables.getLocalVariablesAsync()` as a list of references. -/
def liveIds (st : FigmaState) : List Nat :=
  (liveVars st).map (·.id)

/-- Dereference an array of variable references against the current
heap. -/
def arrVars (st : FigmaState) (arr : List Nat) : List FigmaVariable :=
  arr.filterMap (getVar st)

/-- The host's default value of a freshly created variable, before the
first `setValueForMode` (observable only when that call throws). -/
def defaultVarValue : FigmaVarType → JsValue
  | .COLOR => .rgba ⟨some 0, some 0, some 0, some 1⟩
  | .FLOAT => .num (some 0)
  | .STRING => .str ""
  | .BOOLEAN => .bool false

/-- `figma.variables.createVariable(name, collection, type)`. -/
def createVar (st : FigmaState) (name : String) (collectionId : String) (t : FigmaVarType) :
    FigmaState × Nat :=
  let v : FigmaVariable :=
    { id := st.nextId, name := name, variableCollectionId := collectionId,
      resolvedType := t, value := defaultVarValue t, description := .str "", removed := false }
  ({ st with vars := st.vars ++ [v], nextId := st.nextId + 1 }, st.nextId)

def setVarValue (st : FigmaState) (id : Nat) (v : JsValue) : FigmaState :=
  { st with vars := st.vars.map fun w => if w.id = id then { w with value := v } else w }

def setVarDescription (st : FigmaState) (id : Nat) (d : JsValue) : FigmaState :=
  { st with vars := st.vars.map fun w => if w.id = id then { w with description := d } else w }

/-- `variable.remove()`: throws on an already-removed variable. -/
def removeVar (st : FigmaState) (id : Nat) : Except String FigmaState :=
  match getVar st id with
  | some v =>
    if v.removed then .error "the variable has been removed"
    else .ok { st with vars := st.vars.map fun w => if w.id = id then { w with removed := true } else w }
  | none => .error "the variable has been removed"

/-- The fallible part of the host: `setValueForMode` may throw (type
errors, cyclic aliases, …).  `setFail name = some msg` makes every write
to the variable of that name fail with `msg`. -/
structure Host where
  setFail : String → Option String

/-- The host that never fails a write. -/
def pureHost : Host := ⟨fun _ => none⟩

def jsEndsWith (s suffix : String) : Bool :=
  suffix.data.isSuffixOf s.data

/-- `findVariableByName`: exact match, then `…/name` suffix, then
last-segment match (for multi-segment names), then separator-normalized
comparison. -/
def findVariableByName (name : String) (vars : List FigmaVariable) : Option FigmaVariable :=
  match vars.find? fun v => v.name = name with
  | some v => some v
  | none =>
    match vars.find? fun v => jsEndsWith v.name ("/" ++ name) with
    | some v => some v
    | none =>
      let nameParts := jsSplitLit name "/"
      let found :=
        if nameParts.length > 1 then
          let simpleName := nameParts.getLastD ""
          vars.find? fun v => (jsSplitLit v.name "/").getLastD "" = simpleName
        else none
      match found with
      | some v => some v
      | none =>
        let normalized :=
          String.intercalate "/" ((jsSplitClass isPathSep name).filter fun s => !s.isEmpty)
        vars.find? fun v =>
          let vn := String.intercalate "/" ((jsSplitClass isPathSep v.name).filter fun s => !s.isEmpty)
          vn = normalized || jsEndsWith vn ("/" ++ normalized) || jsEndsWith normalized ("/" ++ vn)

/-- `parseVariableName`: split a full name into path and leaf. -/
def parseVariableName (fullName : String) : List String × String :=
  let parts := jsSplitLit fullName "/"
  (parts.dropLast, parts.getLastD "")

/-- `parseVariableValue`: parse a token value according to its (runtime)
type string. -/
def parseVariableValue (nvar : NotionVariable) : JsValue :=
  if nvar.type = "COLOR" then .rgba (parseColor nvar.value)
  else if nvar.type = "NUMBER" then
    match nvar.value with
    | .num n => .num n
    | v => .num (jsParseFloat (jsValueToString v))
  else if nvar.type = "BOOLEAN" then
    match nvar.value with
    | .bool b => .bool b
    | v => .bool (asciiToLower (jsValueToString v) = "true")
  else .str (jsValueToString nvar.value)

/-- `parseFallbackValue`: parse the textual fallback of an
alias-with-fallback according to the token's type. -/
def parseFallbackValue (fallbackValue : String) (type : String) : JsValue :=
  if type = "COLOR" then .rgba (parseColor (.str fallbackValue))
  else if type = "NUMBER" then
    match jsParseFloat fallbackValue with
    | some q => .num (some q)
    | none => .num (some 0)
  else if type = "BOOLEAN" then .bool (asciiToLower fallbackValue = "true")
  else .str fallbackValue

/-- `createVariableCollection`: find (exact, trimmed, case-insensitive,
first-of-several) or create. -/
def createVariableCollection (name : String) (createNew : Bool) (st : FigmaState) :
    Except String (FigmaState × VariableCollection) :=
  let collections := st.collections
  let existing := collections.find? fun c => c.name = name
  let existing :=
    match existing with
    | some e => some e
    | none => collections.find? fun c => jsTrim c.name = jsTrim name
  let existing :=
    match existing with
    | some e => some e
    | none => collections.find? fun c => asciiToLower c.name = asciiToLower name
  let matching := collections.filter fun c =>
    c.name = name || jsTrim c.name = jsTrim name || asciiToLower c.name = asciiToLower name
  let existing := if matching.length > 1 then matching.head? else existing
  if !createNew then
    match existing with
    | some e => .ok (st, e)
    | none => .error ("Collection \"" ++ name ++ "\" not found. Please select an existing collection or create a new one.")
  else
    let c : VariableCollection := { id := "collection-" ++ toString st.nextId, name := name }
    .ok ({ st with collections := st.collections ++ [c], nextId := st.nextId + 1 }, c)

/-- The `valueToSet` computation of `updateVariable`: resolve the
`{…}` / `…||…` alias syntaxes against the reference array, else parse the
plain value. -/
def updateVariableValueToSet (nvar : NotionVariable) (refVars : List FigmaVariable) : JsValue :=
  let isAliasWithFallback :=
    match nvar.value with
    | .str s => jsIncludes s "||"
    | _ => false
  let isVariableReference :=
    match nvar.value with
    | .str s => jsStartsWith s "\x7b" && jsEndsWithStr s "\x7d" && !isAliasWithFallback
    | _ => false
  if isVariableReference || isAliasWithFallback then
    let raw := jsValueToString nvar.value
    let (refPart, fbPart) :=
      if isAliasWithFallback then
        let parts := jsSplitLit raw "||"
        (parts.getD 0 "", parts.get? 1)
      else (raw, none)
    let referenceName :=
      if jsStartsWith refPart "\x7b" && jsEndsWithStr refPart "\x7d" then jsDropRightN (jsDropN refPart 1) 1
      else refPart
    match findVariableByName referenceName refVars with
    | some rv => JsValue.alias rv.id
    | none =>
      match fbPart with
      | some fb => if fb ≠ "" then parseFallbackValue fb nvar.type else parseVariableValue nvar
      | none => parseVariableValue nvar
  else parseVariableValue nvar

/-- Stage 1 of `updateVariable`: find the collection variable of that
name through the reference array, or create it. -/
def findOrCreate (collection : VariableCollection) (variableName : String)
    (figmaType : FigmaVarType) (allVariables : List Nat) (st : FigmaState) :
    FigmaState × Nat :=
  let collectionVariables :=
    (arrVars st allVariables).filter fun v => v.variableCollectionId = collection.id
  let matchingVariables := collectionVariables.filter fun v => v.name = variableName
  match matchingVariables.head? with
  | some v => (st, v.id)
  | none => createVar st variableName collection.id figmaType

/-- Stage 2 of `updateVariable`: on a resolved-type mismatch, remove the
variable and recreate it under the token's type (`remove()` may throw on
a stale reference). -/
def recreateOnMismatch (collection : VariableCollection) (variableName : String)
    (figmaType : FigmaVarType) (st : FigmaState) (figId : Nat) :
    FigmaState × Except String Nat :=
  match getVar st figId with
  | some v =>
    if v.resolvedType ≠ figmaType then
      match removeVar st figId with
      | .ok st =>
        let (st, nid) := createVar st variableName collection.id figmaType
        (st, .ok nid)
      | .error e => (st, .error e)
    else (st, .ok figId)
  | none => (st, .ok figId)

/-- Stage 3 of `updateVariable`: `setValueForMode` (the host may throw;
a removed variable rejects the write) followed by the description
assignment. -/
def setStep (host : Host) (variableName : String) (valueToSet descr : JsValue)
    (st : FigmaState) (figId : Nat) : FigmaState × Except String Nat :=
  match host.setFail variableName with
  | some msg => (st, .error ("Failed to set value for " ++ variableName ++ ": " ++ msg))
  | none =>
    match getVar st figId with
    | some v =>
      if v.removed then
        (st, .error ("Failed to set value for " ++ variableName ++ ": the variable has been removed"))
      else
        let st := setVarValue st figId valueToSet
        let st := if jsTruthy descr then setVarDescription st figId descr else st
        (st, .ok figId)
    | none => (st, .ok figId)

/-- `updateVariable`: create-or-find, recreate on type mismatch, resolve
alias syntax against the reference array, set the value, set the
description.  Returns the state reached together with the written
variable's id — or, on a throw, the state at the throw point
(JavaScript performs no rollback). -/
def updateVariable (host : Host) (collection : VariableCollection) (nvar : NotionVariable)
    (existingVariables : Option (List Nat)) (st : FigmaState) :
    FigmaState × Except String Nat :=
  let figmaType := convertToFigmaVariableType nvar.type
  let variableName :=
    if nvar.group ≠ "" then nvar.group ++ "/" ++ nvar.name else nvar.name
  let allVariables := existingVariables.getD (liveIds st)
  let fc := findOrCreate collection variableName figmaType allVariables st
  match recreateOnMismatch collection variableName figmaType fc.1 fc.2 with
  | (st, .error e) => (st, .error e)
  | (st, .ok figId) =>
    let valueToSet := updateVariableValueToSet nvar (arrVars st allVariables)
    setStep host variableName valueToSet nvar.description st figId

/-- `getExistingVariables`: read the live variables (optionally filtered
by collection) back into `NotionVariable` shape; alias values are kept as
aliases. -/
def getExistingVariables (collectionId : Option String) (st : FigmaState) :
    List NotionVariable :=
  (liveVars st).filterMap fun fvar =>
    if collectionId.isSome ∧ collectionId ≠ some fvar.variableCollectionId then none
    else
      match st.collections.find? fun c => c.id = fvar.variableCollectionId with
      | none => none
      | some collection =>
        let _ := collection
        let (path, name) := parseVariableName fvar.name
        let type :=
          match fvar.resolvedType with
          | .COLOR => "COLOR"
          | .FLOAT => "NUMBER"
          | .BOOLEAN => "BOOLEAN"
          | .STRING => "STRING"
        some
          { id := toString fvar.id
            name := name
            value := fvar.value
            type := type
            description := fvar.description
            group := String.intercalate "/" path }

/-! ## ReconciliationEngine (`handleImportFromNotion`, `syncHandler.ts`) -/

structure ImportSettings where
  collectionName : String
  createNewCollection : Bool
  overwriteExisting : Bool
  deleteRemovedVariables : Bool
deriving DecidableEq, Repr

/-- The terminal summary the handler posts. -/
structure ImportResult where
  imported : Nat
  skipped : Nat
  deleted : Nat
  errors : Nat
  importErrors : List (String × String)
  total : Nat
deriving DecidableEq, Repr

/-- A token's full name: `group ? group/name : name`. -/
def tokenFullName (nvar : NotionVariable) : String :=
  if nvar.group ≠ "" then nvar.group ++ "/" ++ nvar.name else nvar.name

/-- `ref.replace(/^\{|\}$/g, '')`: strip at most one leading `{` and one
trailing `}`. -/
def stripBraces (s : String) : String :=
  let s := if jsStartsWith s "\x7b" then jsDropN s 1 else s
  if jsEndsWithStr s "\x7d" then jsDropRightN s 1 else s

/-- Loop state of pass 1.  `toks` carries the tokens after the loop's
in-place `variable.type` mutation (visible to pass 2 and the caller). -/
structure Pass1State where
  st : FigmaState
  arr : List Nat
  imported : Nat
  skipped : Nat
  errors : Nat
  importErrors : List (String × String)
  toks : List NotionVariable
deriving Repr

/-- One iteration of pass 1 (the value-setting pass): skip logic, type
auto-detection, the provisional alias-with-fallback path, the main write,
and the per-item catch. -/
def pass1Step (host : Host) (collection : VariableCollection)
    (existingVariableMap : List (String × NotionVariable)) (overwriteExisting : Bool)
    (s : Pass1State) (nvar : NotionVariable) : Pass1State :=
  let fullName := tokenFullName nvar
  let existingVar := jsMapGet existingVariableMap fullName
  if existingVar.isSome && !overwriteExisting then
    { s with skipped := s.skipped + 1, toks := s.toks ++ [nvar] }
  else
    let nvar := if nvar.type = "" then { nvar with type := detectVariableType nvar.value } else nvar
    let isAliasWithFallback :=
      match nvar.value with
      | .str v => jsIncludes v "||"
      | _ => false
    let fallbackTaken :=
      if isAliasWithFallback then
        let raw := jsValueToString nvar.value
        let parts := jsSplitLit raw "||"
        let ref := parts.getD 0 ""
        let fb := (parts.get? 1).getD ""
        let targetName := stripBraces ref
        let refVar := findVariableByName targetName (arrVars s.st s.arr)
        if refVar.isNone && fb ≠ "" then some fb else none
      else none
    match fallbackTaken with
    | some fb =>
      let backup := { nvar with value := .str fb }
      match updateVariable host collection backup (some s.arr) s.st with
      | (st, .ok newId) =>
        { s with st := st, arr := s.arr ++ [newId], imported := s.imported + 1,
                 toks := s.toks ++ [nvar] }
      | (st, .error e) =>
        { s with st := st, errors := s.errors + 1,
                 importErrors := s.importErrors ++ [(nvar.name, e)], toks := s.toks ++ [nvar] }
    | none =>
      match updateVariable host collection nvar (some s.arr) s.st with
      | (st, .ok newId) =>
        let arr := if s.arr.contains newId then s.arr else s.arr ++ [newId]
        { s with st := st, arr := arr, imported := s.imported + 1, toks := s.toks ++ [nvar] }
      | (st, .error e) =>
        { s with st := st, errors := s.errors + 1,
                 importErrors := s.importErrors ++ [(nvar.name, e)], toks := s.toks ++ [nvar] }

def pass1 (host : Host) (collection : VariableCollection)
    (existingVariableMap : List (String × NotionVariable)) (overwriteExisting : Bool)
    (ordered : List NotionVariable) (st : FigmaState) (arr : List Nat) : Pass1State :=
  ordered.foldl (pass1Step host collection existingVariableMap overwriteExisting)
    { st := st, arr := arr, imported := 0, skipped := 0, errors := 0, importErrors := [], toks := [] }

/-- One iteration of pass 2 (the alias re-resolution pass): re-write every
token whose value starts with `{`; failures are logged and dropped. -/
def pass2Step (host : Host) (collection : VariableCollection) (arr : List Nat)
    (st : FigmaState) (nvar : NotionVariable) : FigmaState :=
  let isAlias :=
    match nvar.value with
    | .str v => jsStartsWith v "\x7b"
    | _ => false
  if !isAlias then st
  else
    match updateVariable host collection nvar (some arr) st with
    | (st, .ok _) => st
    | (st, .error _) => st

def pass2 (host : Host) (collection : VariableCollection) (arr : List Nat)
    (toks : List NotionVariable) (st : FigmaState) : FigmaState :=
  toks.foldl (pass2Step host collection arr) st

/-- Pass 3 (the deletion pass): delete, independently and with per-item
catch, every collection variable of the reference array whose name is not
in the batch's full-name set. -/
def pass3 (notionVariableNames : List String) (collectionId : String) (arr : List Nat)
    (st : FigmaState) : FigmaState × Nat :=
  let collectionVars := (arrVars st arr).filter fun v => v.variableCollectionId = collectionId
  let varsToDelete := collectionVars.filter fun v => !notionVariableNames.contains v.name
  varsToDelete.foldl
    (fun (acc : FigmaState × Nat) v =>
      match removeVar acc.1 v.id with
      | .ok st => (st, acc.2 + 1)
      | .error _ => acc)
    (st, 0)

/-- `handleImportFromNotion`: the full run.  A batch-level failure (no
input, collection not found) is the `Except.error` case; per-item
failures are recovered into the summary. -/
def handleImportFromNotion (host : Host) (settings : ImportSettings)
    (vs : List NotionVariable) (st : FigmaState) :
    Except String (FigmaState × ImportResult) := do
  if vs.isEmpty then
    .error "インポートするデータが見つかりませんでした。"
  else
    let collectionName := if settings.collectionName = "" then "Design Tokens" else settings.collectionName
    let (st, collection) ← createVariableCollection collectionName settings.createNewCollection st
    let existingVariables := getExistingVariables (some collection.id) st
    let allFigmaVariables := liveIds st
    let existingVariableMap := existingVariables.map fun v =>
      (if v.group ≠ "" then v.group ++ "/" ++ v.name else v.name, v)
    let ordered := vs
    let p1 := pass1 host collection existingVariableMap settings.overwriteExisting ordered st allFigmaVariables
    let st := pass2 host collection p1.arr p1.toks p1.st
    let (st, deletedCount) :=
      if settings.deleteRemovedVariables then
        let notionVariableNames := vs.map tokenFullName
        pass3 notionVariableNames collection.id p1.arr st
      else (st, 0)
    .ok (st,
      { imported := p1.imported, skipped := p1.skipped, deleted := deletedCount,
        errors := p1.errors, importErrors := p1.importErrors, total := vs.length })

/-! ## Concrete run scenarios used by the counterexamples -/

/-- The single target collection of the concrete scenarios. -/
def testCollection : VariableCollection := ⟨"collection-1", "Test Collection"⟩

/-- A store holding only the (empty) target collection. -/
def emptyStore : FigmaState := ⟨[testCollection], [], 0⟩

/-- Import settings selecting the existing test collection. -/
def testSettings (overwrite prune : Bool) : ImportSettings :=
  ⟨"Test Collection", false, overwrite, prune⟩

/-- C3 scenario: the store already holds a STRING variable `b`; the batch
re-types `b` to COLOR and makes `a` an alias of `b` with a fallback. -/
def c3Store : FigmaState :=
  ⟨[testCollection], [⟨0, "b", "collection-1", .STRING, .str "old", .str "", false⟩], 1⟩

def c3Tokens : List NotionVariable :=
  [⟨"vb", "b", .str "#112233", "COLOR", .str "", ""⟩,
   ⟨"va", "a", .str "{b}||#445566", "COLOR", .str "", ""⟩]

/-- C1 scenario: the collection holds `a = "old"`; the batch carries an
alias-shaped token for `a` and runs with `overwriteExisting = false`. -/
def c1Store : FigmaState :=
  ⟨[testCollection], [⟨0, "a", "collection-1", .STRING, .str "old", .str "", false⟩], 1⟩

def c1Token : NotionVariable := ⟨"v1", "a", .str "{b}", "STRING", .str "", ""⟩

/-- C10 scenario: a STRING token whose literal text ends in `||`. -/
def c10Token : NotionVariable := ⟨"v1", "t", .str "a||", "STRING", .str "", ""⟩

/-- C6 scenario: a host that throws on the write of the variable named
`tok3` only (the spec's "Token #3 of 5" example). -/
def c6Host : Host := ⟨fun n => if n = "tok3" then some "boom" else none⟩

def c6Tokens : List NotionVariable :=
  [⟨"v1", "tok1", .str "a1", "STRING", .str "", ""⟩,
   ⟨"v2", "tok2", .str "a2", "STRING", .str "", ""⟩,
   ⟨"v3", "tok3", .str "a3", "STRING", .str "", ""⟩,
   ⟨"v4", "tok4", .str "a4", "STRING", .str "", ""⟩,
   ⟨"v5", "tok5", .str "a5", "STRING", .str "", ""⟩]

/-- The terminal summary of the C6 scenario's run. -/
def c6Run : Option ImportResult :=
  (handleImportFromNotion c6Host (testSettings true false) c6Tokens emptyStore).toOption.map (·.2)

/-- C4 scenario: token `a` is an alias-with-fallback targeting token `b`,
which only appears later in the batch (the spec's forward-reference
property). -/
def c4Tokens : List NotionVariable :=
  [⟨"va", "a", .str "{b}||fb", "STRING", .str "", ""⟩,
   ⟨"vb", "b", .str "real", "STRING", .str "", ""⟩]

/-- C7 scenario: page 1 carries a braced rollup value `{B}` and a `Value`
relation to page 2, which itself is a member of the same batch. -/
def c7Page1 : NotionPage :=
  ⟨some "p1", some "A", none, none,
   some [("Name", .title (some [⟨some "A"⟩])),
         ("ValueRollup", .rich_text (some [⟨some "{B}"⟩])),
         ("Value", .relation (some [some "p2"]))]⟩

def c7Page2 : NotionPage :=
  ⟨some "p2", some "B", none, none,
   some [("Name", .title (some [⟨some "B"⟩])),
         ("Value", .rich_text (some [⟨some "#112233"⟩]))]⟩

def c7Pages : List NotionPage := [c7Page1, c7Page2]

/-- The external document store backing `fetchById` in the C7 scenario. -/
def c7Db : String → Option NotionPage :=
  fun id => if id = "p2" then some c7Page2 else none

/-- C5 scenario: two live COLOR variables in the target collection; the
batch's name set covers only the first (the repository's own pruning
test shape). -/
def c5Store : FigmaState :=
  ⟨[testCollection],
   [⟨0, "Color/Primary/blue-500", "collection-1", .COLOR, .str "#0000FF", .str "", false⟩,
    ⟨1, "Color/Primary/old-color", "collection-1", .COLOR, .str "#FF0000", .str "", false⟩], 2⟩

/-- The C3 scenario's first and second full runs. -/
def c3Run1 : Option FigmaState :=
  (handleImportFromNotion pureHost (testSettings true false) c3Tokens c3Store).toOption.map (·.1)

def c3Run2 : Option FigmaState :=
  c3Run1.bind fun st1 =>
    (handleImportFromNotion pureHost (testSettings true false) c3Tokens st1).toOption.map (·.1)

/-- The C10 scenario's full run. -/
def c10Run : Option FigmaState :=
  (handleImportFromNotion pureHost (testSettings true false) [c10Token] emptyStore).toOption.map (·.1)

/-- Marking a set of ids removed (the cumulative effect of the deletion
fold). -/
def markRemoved (ids : List Nat) (v : FigmaVariable) : FigmaVariable :=
  if v.id ∈ ids then { v with removed := true } else v

/-- The cache invariant: every fetched id has a cache entry, and no id was
fetched twice. -/
def FetchInv (fs : FetchState) : Prop :=
  fs.fetched.Nodup ∧
    ∀ i ∈ fs.fetched, (fs.pageCache.find? fun kv => kv.1 = i).isSome = true

/-- Heap well-formedness: unique ids, all below the fresh-id counter. -/
def StoreInv (st : FigmaState) : Prop :=
  (st.vars.map fun w => w.id).Nodup ∧ ∀ v ∈ st.vars, v.id < st.nextId

/-! ## Theorems -/

/-- C2.  The claim says title/rich-text extraction concatenates all text
runs.  The code's `extractPlain` reads `arr[0]?.plain_text` only: on the
repository's own test input (two runs `"border-color-"`, `"subtle"`,
expected `"border-color-subtle"`) it returns just the first run.  This
evaluates the embedded code at that failing input. -/
theorem extractFromProperty_title_first_run_only :
    extractFromProperty
        (some [("Name", .title (some [⟨some "border-color-"⟩, ⟨some "subtle"⟩]))]) "Name"
        = .str "border-color-" ∧
      extractFromProperty
        (some [("Group", .rich_text (some [⟨some "Color/"⟩, ⟨some "Primary"⟩, ⟨some "/Blue"⟩]))]) "Group"
        = .str "Color/" ∧
      ("border-color-" : String) ≠ "border-color-subtle" := by
  refine ⟨rfl, rfl, by decide⟩

/-- C3.  Running the reconciliation twice with the identical batch and
`overwriteExisting = true` is claimed to leave the store unchanged on the
second run.  At this input the first run deletes the type-mismatched
variable `b` (id 0) while recreating it as id 1, yet resolves the alias
token `a` through the stale reference array to the *removed* id 0 — a
dangling alias.  The second run resolves to the live id 1, so the final
states differ. -/
theorem reconcile_second_run_changes_state :
    (c3Run1.map fun st1 => (st1.vars.filter fun v => v.name = "a").map fun v => v.value)
        = some [.alias 0] ∧
      (c3Run1.bind fun st1 => (getVar st1 0).map fun v => v.removed) = some true ∧
      (c3Run2.map fun st2 => (st2.vars.filter fun v => v.name = "a").map fun v => v.value)
        = some [.alias 1] ∧
      c3Run2.isSome = true ∧ c3Run2 ≠ c3Run1 := by
  decide

set_option maxRecDepth 2048 in
/-- Two-hex-digit output of `toHex` on every non-`NaN` input (the byte is
clamped to 0–255 before rendering). -/
theorem toHex_some_length (q : JQ) : (toHex (some q)).length = 2 := by
  have hball : ∀ m : Nat, m < 256 → (padStart2 (natToHexString m)).length = 2 := by decide
  have h : (max 0 (min 255 (qfloor (q + mkJQ 1 2)))).toNat < 256 := by
    have h1 : min 255 (qfloor (q + mkJQ 1 2)) ≤ 255 := min_le_left _ _
    omega
  simpa [toHex, jroundInt] using hball _ h

/-- C8 counterexample.  `rgba(0,0,0,2)` is accepted by the rgb branch with
resolved alpha `2 ≠ 1`, yet the emitted hex omits the alpha pair
(the source tests `a < 1`, not `a ≠ 1`). -/
theorem normalizeColor_alpha_two_omitted :
    rgbBranch (jsTrim "rgba(0,0,0,2)") = some (some 0, some 0, some 0, some 2) ∧
      normalizeColor (some (.str "rgba(0,0,0,2)")) = .str "#000000" ∧
      (some 2 : JSNum) ≠ some 1 := by
  decide

/-- C8 amended.  For every string the codec routes into the rgb()/rgba()
or hsl()/hsla() branch with numeric r, g, b channels: the emitted hex
has 9 characters (8 hex digits) exactly when the resolved alpha compares
`< 1`, and 7 characters (alpha omitted) exactly otherwise — so alpha is
omitted whenever it is `≥ 1` (or `NaN`), not only when it equals 1;
hsl alphas are pre-clamped into `[0,1]`, for which the two rules
coincide. -/
theorem normalizeColor_alpha_omission (s : String) (r g b a : JSNum)
    (hh1 : matchesHexHash (jsTrim s) = false)
    (hh2 : matchesHexBare (jsTrim s) = false)
    (hh3 : matchShortHex (jsTrim s) = none)
    (hbranch : rgbBranch (jsTrim s) = some (r, g, b, a) ∨
      (rgbBranch (jsTrim s) = none ∧ hslBranch (jsTrim s) = some (r, g, b, a)))
    (hr : r.isSome = true) (hg : g.isSome = true) (hb : b.isSome = true) :
    normalizeColor (some (.str s)) = .str (hexEmit r g b a) ∧
      ((hexEmit r g b a).length = 9 ↔ jlt a (some 1) = true) ∧
      ((hexEmit r g b a).length = 7 ↔ jlt a (some 1) = false) := by
  obtain ⟨qr, rfl⟩ := Option.isSome_iff_exists.mp hr
  obtain ⟨qg, rfl⟩ := Option.isSome_iff_exists.mp hg
  obtain ⟨qb, rfl⟩ := Option.isSome_iff_exists.mp hb
  have hash1 : ("#" : String).length = 1 := rfl
  have hempty : ("" : String).length = 0 := rfl
  have hlen : ∀ x : JSNum, (hexEmit (some qr) (some qg) (some qb) x).length
      = 7 + (if jlt x (some 1) then 2 else 0) := by
    intro x
    cases x with
    | none => simp [hexEmit, jlt, String.length_append, toHex_some_length, hash1, hempty]
    | some qx =>
      by_cases hx : jlt (some qx) (some 1) = true
      · simp [hexEmit, hx, jmul, String.length_append, toHex_some_length, hash1]
      · simp only [Bool.not_eq_true] at hx
        simp [hexEmit, hx, String.length_append, toHex_some_length, hash1, hempty]
  refine ⟨?_, ?_, ?_⟩
  · rcases hbranch with hrgb | ⟨hrgb, hhsl⟩
    · simp [normalizeColor, hh1, hh2, hh3, hrgb]
    · simp [normalizeColor, hh1, hh2, hh3, hrgb, hhsl]
  · rw [hlen]; by_cases hx : jlt a (some 1) = true <;> simp [hx]
  · rw [hlen]; by_cases hx : jlt a (some 1) = true <;> simp [hx]

/-- C8 witness: the amended rule applied to `rgba(255, 0, 0, 0.5)`. -/
theorem normalizeColor_alpha_omission_witness :
    normalizeColor (some (.str "rgba(255, 0, 0, 0.5)"))
        = .str (hexEmit (some 255) (some 0) (some 0) (some ⟨1, 2⟩)) ∧
      ((hexEmit (some 255) (some 0) (some 0) (some ⟨1, 2⟩)).length = 9 ↔
        jlt (some ⟨1, 2⟩) (some 1) = true) ∧
      ((hexEmit (some 255) (some 0) (some 0) (some ⟨1, 2⟩)).length = 7 ↔
        jlt (some ⟨1, 2⟩) (some 1) = false) :=
  normalizeColor_alpha_omission "rgba(255, 0, 0, 0.5)" _ _ _ _
    (by decide) (by decide) (by decide) (Or.inl (by decide))
    (by decide) (by decide) (by decide)

/-- C9 counterexample.  `"1,2,3"` matches none of the syntaxes the claim
enumerates (hex with or without `#`, short hex, rgb(), hsl()), yet
`normalizeColor` converts it through the additional plain-comma-triple
branch instead of returning it unchanged. -/
theorem normalizeColor_csv_not_unchanged :
    matchesHexHash (jsTrim "1,2,3") = false ∧
      matchesHexBare (jsTrim "1,2,3") = false ∧
      matchShortHex (jsTrim "1,2,3") = none ∧
      rgbBranch (jsTrim "1,2,3") = none ∧
      hslBranch (jsTrim "1,2,3") = none ∧
      normalizeColor (some (.str "1,2,3")) = .str "#010203" ∧
      ("#010203" : String) ≠ "1,2,3" := by
  decide

/-- C9 amended.  A string matching none of the recognized syntaxes —
which include the plain `r,g,b[,a]` comma triple alongside the ones the
claim lists — is returned *trimmed* (the codec tests all patterns on the
trimmed input and returns that). -/
theorem normalizeColor_unrecognized (s : String)
    (hh1 : matchesHexHash (jsTrim s) = false)
    (hh2 : matchesHexBare (jsTrim s) = false)
    (hh3 : matchShortHex (jsTrim s) = none)
    (hh4 : rgbBranch (jsTrim s) = none)
    (hh5 : hslBranch (jsTrim s) = none)
    (hh6 : csvBranch (jsTrim s) = none) :
    normalizeColor (some (.str s)) = .str (jsTrim s) := by
  simp [normalizeColor, hh1, hh2, hh3, hh4, hh5, hh6]

/-- C9 witness: the amended rule applied to `"not-a-color"`. -/
theorem normalizeColor_unrecognized_witness :
    normalizeColor (some (.str "not-a-color")) = .str (jsTrim "not-a-color") :=
  normalizeColor_unrecognized "not-a-color" (by decide) (by decide) (by decide)
    (by decide) (by decide) (by decide)

/-! ### Store-model helper lemmas -/

/-- A found variable carries the id it was looked up under. -/
theorem getVar_some_id (st : FigmaState) (j : Nat) (v : FigmaVariable)
    (h : getVar st j = some v) : v.id = j := by
  have := List.find?_some h
  simpa using this

/-- A member of a dereferenced reference array is its own heap cell. -/
theorem mem_arrVars_getVar (st : FigmaState) (arr : List Nat) (v : FigmaVariable)
    (h : v ∈ arrVars st arr) : getVar st v.id = some v := by
  simp only [arrVars, List.mem_filterMap] at h
  obtain ⟨a, _, ha⟩ := h
  have hva : v.id = a := getVar_some_id st a v ha
  rw [hva]
  exact ha

/-- Reading through `setVarValue`. -/
theorem getVar_setVarValue (st : FigmaState) (i : Nat) (v : JsValue) (j : Nat) :
    getVar (setVarValue st i v) j
      = (getVar st j).map fun w => if w.id = i then { w with value := v } else w := by
  simp only [getVar, setVarValue, List.find?_map]
  have hp : ((fun w : FigmaVariable => decide (w.id = j)) ∘
      fun w => if w.id = i then { w with value := v } else w)
      = fun w : FigmaVariable => decide (w.id = j) := by
    funext w
    by_cases hw : w.id = i <;> simp [Function.comp, hw]
  rw [hp]

/-- Reading through `setVarDescription`. -/
theorem getVar_setVarDescription (st : FigmaState) (i : Nat) (d : JsValue) (j : Nat) :
    getVar (setVarDescription st i d) j
      = (getVar st j).map fun w => if w.id = i then { w with description := d } else w := by
  simp only [getVar, setVarDescription, List.find?_map]
  have hp : ((fun w : FigmaVariable => decide (w.id = j)) ∘
      fun w => if w.id = i then { w with description := d } else w)
      = fun w : FigmaVariable => decide (w.id = j) := by
    funext w
    by_cases hw : w.id = i <;> simp [Function.comp, hw]
  rw [hp]

/-- Reading through a successful `removeVar`. -/
theorem getVar_removeVar (st : FigmaState) (i : Nat) (st' : FigmaState) (j : Nat)
    (h : removeVar st i = .ok st') :
    getVar st' j = (getVar st j).map fun w => if w.id = i then { w with removed := true } else w := by
  simp only [removeVar] at h
  rcases hgv : getVar st i with _ | v
  · rw [hgv] at h; exact absurd h (by simp)
  · rw [hgv] at h
    dsimp only at h
    by_cases hrm : v.removed = true
    · rw [if_pos hrm] at h; exact absurd h (by simp)
    · rw [if_neg hrm] at h
      simp only [Except.ok.injEq] at h
      subst h
      simp only [getVar, List.find?_map]
      have hp : ((fun w : FigmaVariable => decide (w.id = j)) ∘
          fun w => if w.id = i then { w with removed := true } else w)
          = fun w : FigmaVariable => decide (w.id = j) := by
        funext w
        by_cases hw : w.id = i <;> simp [Function.comp, hw]
      rw [hp]

/-- Reading an existing cell through `createVar`. -/
theorem getVar_createVar_of_some (st : FigmaState) (name cid : String) (t : FigmaVarType)
    (j : Nat) (w : FigmaVariable) (h : getVar st j = some w) :
    getVar (createVar st name cid t).1 j = some w := by
  simp only [getVar, createVar, List.find?_append] at h ⊢
  rw [h]
  rfl

/-- The cell just created by `createVar` exists. -/
theorem getVar_createVar_self_isSome (st : FigmaState) (name cid : String) (t : FigmaVarType) :
    (getVar (createVar st name cid t).1 (createVar st name cid t).2).isSome = true := by
  simp only [getVar, createVar, List.find?_append]
  rcases hf : st.vars.find? fun v => v.id = st.nextId with _ | v <;>
    simp [hf, List.find?_cons_of_pos]

/-- Stage 1 always yields an existing cell. -/
theorem findOrCreate_isSome (c : VariableCollection) (vn : String) (ft : FigmaVarType)
    (arr : List Nat) (st : FigmaState) :
    (getVar (findOrCreate c vn ft arr st).1 (findOrCreate c vn ft arr st).2).isSome = true := by
  simp only [findOrCreate]
  rcases hh : (((arrVars st arr).filter fun v => v.variableCollectionId = c.id).filter
      fun v => v.name = vn).head? with _ | v
  · rw [hh]
    exact getVar_createVar_self_isSome st vn c.id ft
  · rw [hh]
    have hmem : v ∈ arrVars st arr := by
      have h1 := List.mem_of_mem_head? (l := ((arrVars st arr).filter
        fun w => w.variableCollectionId = c.id).filter fun w => w.name = vn) (a := v) ?hm
      · exact List.mem_of_mem_filter (List.mem_of_mem_filter h1)
      · rw [hh]; rfl
    have := mem_arrVars_getVar st arr v hmem
    simp [this]

/-- Stage 2 keeps the target cell existing. -/
theorem recreateOnMismatch_isSome (c : VariableCollection) (vn : String) (ft : FigmaVarType)
    (st : FigmaState) (figId : Nat) (st2 : FigmaState) (nid : Nat)
    (hin : (getVar st figId).isSome = true)
    (h : recreateOnMismatch c vn ft st figId = (st2, .ok nid)) :
    (getVar st2 nid).isSome = true := by
  simp only [recreateOnMismatch] at h
  rcases hgv : getVar st figId with _ | v
  · rw [hgv] at hin; simp at hin
  · rw [hgv] at h
    dsimp only at h
    by_cases hmis : v.resolvedType ≠ ft
    · rw [if_pos hmis] at h
      rcases hrm : removeVar st figId with e | st3
      · rw [hrm] at h
        dsimp only at h
        simp at h
      · rw [hrm] at h
        dsimp only at h
        simp only [Prod.mk.injEq, Except.ok.injEq] at h
        obtain ⟨h1, h2⟩ := h
        rw [← h1, ← h2]
        exact getVar_createVar_self_isSome st3 vn c.id ft
    · rw [if_neg hmis] at h
      simp only [Prod.mk.injEq, Except.ok.injEq] at h
      obtain ⟨h1, h2⟩ := h
      rw [← h1, ← h2]
      exact hin

/-- Stage 3 on success writes exactly `valueToSet` into the returned id. -/
theorem setStep_ok_value (host : Host) (vn : String) (val d : JsValue) (st : FigmaState)
    (figId : Nat) (stOut : FigmaState) (id : Nat)
    (hin : (getVar st figId).isSome = true)
    (h : setStep host vn val d st figId = (stOut, .ok id)) :
    id = figId ∧ (getVar stOut id).map (fun v => v.value) = some val := by
  simp only [setStep] at h
  rcases hsf : host.setFail vn with _ | msg
  · rw [hsf] at h
    rcases hgv : getVar st figId with _ | v
    · rw [hgv] at hin; simp at hin
    · rw [hgv] at h
      dsimp only at h
      by_cases hrm : v.removed = true
      · rw [if_pos hrm] at h; simp at h
      · rw [if_neg hrm] at h
        simp only [Prod.mk.injEq, Except.ok.injEq] at h
        obtain ⟨h1, h2⟩ := h
        subst h2
        refine ⟨rfl, ?_⟩
        have hvid : v.id = figId := getVar_some_id st figId v hgv
        have hset : getVar (setVarValue st figId val) figId
            = some { v with value := val } := by
          rw [getVar_setVarValue, hgv]
          simp [hvid]
        by_cases hd : jsTruthy d = true
        · rw [← h1, if_pos hd, getVar_setVarDescription, hset]
          simp [hvid]
        · rw [← h1, if_neg hd, hset]
          simp
  · rw [hsf] at h
    simp at h

/-- On success, the value `updateVariable` stores under the returned id is
the alias-resolution result computed against the reference array (at the
post-recreate state). -/
theorem updateVariable_ok_value (host : Host) (c : VariableCollection) (nvar : NotionVariable)
    (arr : List Nat) (st stOut : FigmaState) (id : Nat)
    (h : updateVariable host c nvar (some arr) st = (stOut, .ok id)) :
    ∃ stMid : FigmaState,
      (getVar stOut id).map (fun v => v.value)
        = some (updateVariableValueToSet nvar (arrVars stMid arr)) := by
  simp only [updateVariable, Option.getD_some] at h
  set ft := convertToFigmaVariableType nvar.type with hft
  set vn := (if nvar.group ≠ "" then nvar.group ++ "/" ++ nvar.name else nvar.name) with hvn
  have hfc := findOrCreate_isSome c vn ft arr st
  rcases hrec : recreateOnMismatch c vn ft (findOrCreate c vn ft arr st).1
      (findOrCreate c vn ft arr st).2 with ⟨st2, res⟩
  rw [hrec] at h
  cases res with
  | error e => simp at h
  | ok figId =>
    have hsome := recreateOnMismatch_isSome c vn ft _ _ st2 figId hfc hrec
    refine ⟨st2, ?_⟩
    have := setStep_ok_value host vn (updateVariableValueToSet nvar (arrVars st2 arr))
      nvar.description st2 figId stOut id hsome h
    obtain ⟨hid, hval⟩ := this
    exact hval

/-! ### Split-length lemmas (for the `…||…` fallback analysis) -/

/-- Every piece produced by the fueled literal split is no longer than the
input. -/
theorem splitLitCore_piece_le (c0 : Char) (sepRest : List Char) :
    ∀ (fuel : Nat) (cs : List Char), ∀ p ∈ splitLitCore c0 sepRest fuel cs,
      p.length ≤ cs.length := by
  intro fuel
  induction fuel with
  | zero =>
    intro cs p hp
    simp only [splitLitCore, List.mem_singleton] at hp
    simp [hp]
  | succ fuel ih =>
    intro cs p hp
    cases cs with
    | nil =>
      simp only [splitLitCore, List.mem_singleton] at hp
      simp [hp]
    | cons c rest =>
      simp only [splitLitCore] at hp
      by_cases hpre : (c0 :: sepRest).isPrefixOf (c :: rest) = true
      · rw [if_pos hpre] at hp
        rcases List.mem_cons.mp hp with h | h
        · simp [h]
        · have h1 := ih _ p h
          have h2 := List.length_drop sepRest.length rest
          simp only [List.length_cons]
          omega
      · rw [if_neg hpre] at hp
        rcases hsplit : splitLitCore c0 sepRest fuel rest with _ | ⟨q, qs⟩
        · rw [hsplit] at hp
          simp only [List.mem_singleton] at hp
          simp [hp]
        · rw [hsplit] at hp
          rcases List.mem_cons.mp hp with h | h
          · have hq : q.length ≤ rest.length :=
              ih _ q (by rw [hsplit]; exact List.mem_cons_self _ _)
            subst h
            simp only [List.length_cons]
            omega
          · have h1 := ih _ p (by rw [hsplit]; exact List.mem_cons_of_mem _ h)
            simp only [List.length_cons]
            omega

/-- The second piece of the fueled literal split is a full separator
shorter than the input (given enough fuel). -/
theorem splitLitCore_second_le (c0 : Char) (sepRest : List Char) :
    ∀ (fuel : Nat) (cs : List Char) (t : List Char), cs.length ≤ fuel →
      (splitLitCore c0 sepRest fuel cs).get? 1 = some t →
      t.length + sepRest.length + 1 ≤ cs.length := by
  intro fuel
  induction fuel with
  | zero =>
    intro cs t hfuel hget
    simp only [splitLitCore] at hget
    simp at hget
  | succ fuel ih =>
    intro cs t hfuel hget
    cases cs with
    | nil =>
      simp only [splitLitCore] at hget
      simp at hget
    | cons c rest =>
      simp only [splitLitCore] at hget
      by_cases hpre : (c0 :: sepRest).isPrefixOf (c :: rest) = true
      · rw [if_pos hpre] at hget
        rcases hsplit : splitLitCore c0 sepRest fuel (rest.drop sepRest.length) with _ | ⟨q, qs⟩
        · rw [hsplit] at hget
          simp at hget
        · rw [hsplit] at hget
          simp only [List.get?_cons_succ, List.get?_cons_zero, Option.some.injEq] at hget
          have hmem : q ∈ splitLitCore c0 sepRest fuel (rest.drop sepRest.length) := by
            rw [hsplit]; exact List.mem_cons_self _ _
          have hle := splitLitCore_piece_le c0 sepRest fuel _ q hmem
          have hplen : sepRest.length ≤ rest.length := by
            have hp2 := List.IsPrefix.length_le (List.isPrefixOf_iff_prefix.mp hpre)
            simp only [List.length_cons] at hp2
            omega
          have hd := List.length_drop sepRest.length rest
          simp only [List.length_cons]
          rw [← hget]
          omega
      · rw [if_neg hpre] at hget
        rcases hsplit : splitLitCore c0 sepRest fuel rest with _ | ⟨q, qs⟩
        · rw [hsplit] at hget
          simp at hget
        · rw [hsplit] at hget
          simp only [List.get?_cons_succ] at hget
          have hget2 : (splitLitCore c0 sepRest fuel rest).get? 1 = some t := by
            rw [hsplit]
            simpa using hget
          have hrest : rest.length ≤ fuel := by
            simp only [List.length_cons] at hfuel
            omega
          have h1 := ih rest t hrest hget2
          simp only [List.length_cons]
          omega

/-- The fallback part after the first `||` is strictly shorter than the
whole value string. -/
theorem jsSplitLit_doublebar_second_shorter (s fb : String)
    (h : (jsSplitLit s "||").get? 1 = some fb) : fb.length + 2 ≤ s.length := by
  have hdef : jsSplitLit s "||"
      = (splitLitCore '|' ['|'] s.data.length s.data).map (fun cs => (⟨cs⟩ : String)) := rfl
  rw [hdef, List.get?_map] at h
  rcases hsplit : (splitLitCore '|' ['|'] s.data.length s.data).get? 1 with _ | cs
  · rw [hsplit] at h
    exact absurd h (by exact fun hc => Option.noConfusion hc)
  · rw [hsplit] at h
    simp only [Option.map_some', Option.some.injEq] at h
    have h2 := splitLitCore_second_le '|' ['|'] s.data.length s.data cs le_rfl hsplit
    have hlen : fb.length = cs.length := by
      rw [← h]
      rfl
    have hslen : s.length = s.data.length := rfl
    simp only [List.length_cons, List.length_nil] at h2
    omega

/-! ### C10 -/

/-- C10 counterexample.  The STRING token `"a||"` contains `||`, has an
empty fallback part and an unresolvable reference `"a"`: the run stores
the literal text `"a||"` verbatim — the claim says a STRING value
containing `||` is never stored verbatim. -/
theorem doublebar_stored_verbatim :
    jsIncludes "a||" "||" = true ∧
      c10Token.type = "STRING" ∧ c10Token.value = .str "a||" ∧
      (c10Run.map fun st => st.vars.map fun v => (v.name, v.value)) = some [("t", .str "a||")] := by
  decide

/-- C10 amended.  A STRING-typed token whose string value contains `||`
with a *nonempty* fallback part is never stored verbatim by
`updateVariable`: the stored value is either a native alias or the parsed
fallback, both different from the literal text.  (With an empty fallback
part and an unresolvable reference, the literal text is stored as-is —
the counterexample.) -/
theorem doublebar_nonempty_fallback_not_verbatim (host : Host) (c : VariableCollection)
    (nvar : NotionVariable) (arr : List Nat) (st : FigmaState) (s fb : String)
    (htype : nvar.type = "STRING") (hval : nvar.value = .str s)
    (hsub : jsIncludes s "||" = true)
    (hfb : (jsSplitLit s "||").get? 1 = some fb) (hfb2 : fb ≠ "") :
    (match updateVariable host c nvar (some arr) st with
     | (stOut, .ok id) => (getVar stOut id).map (fun v => v.value) ≠ some (.str s)
     | (_, .error _) => True) := by
  rcases hupd : updateVariable host c nvar (some arr) st with ⟨stOut, res⟩
  cases res with
  | error e => exact trivial
  | ok id =>
    dsimp only
    obtain ⟨stMid, hvalue⟩ := updateVariable_ok_value host c nvar arr st stOut id hupd
    rw [hvalue]
    have hshape : (∃ rid, updateVariableValueToSet nvar (arrVars stMid arr) = .alias rid) ∨
        updateVariableValueToSet nvar (arrVars stMid arr) = .str fb := by
      simp only [updateVariableValueToSet, hval, hsub, Bool.or_true, if_pos, jsValueToString]
      rcases hfind : findVariableByName
          (if jsStartsWith ((jsSplitLit s "||").getD 0 "") "\x7b" &&
              jsEndsWithStr ((jsSplitLit s "||").getD 0 "") "\x7d" then
            jsDropRightN (jsDropN ((jsSplitLit s "||").getD 0 "") 1) 1
          else (jsSplitLit s "||").getD 0 "") (arrVars stMid arr) with _ | rv
      · right
        rw [hfb]
        simp only [hfb2, if_neg, ne_eq, not_false_iff, if_pos]
        rw [parseFallbackValue, htype]
        simp
      · left
        exact ⟨rv.id, rfl⟩
    have hfbne : fb ≠ s := by
      intro hcontra
      have := jsSplitLit_doublebar_second_shorter s fb hfb
      rw [hcontra] at this
      omega
    rcases hshape with ⟨rid, hr⟩ | hr <;> rw [hr] <;> simp [hfbne]

/-- C10 witness: the amended rule applied to the token `"a||b"` against an
empty store. -/
theorem doublebar_nonempty_fallback_not_verbatim_witness :
    (match updateVariable pureHost testCollection ⟨"v", "t", .str "a||b", "STRING", .str "", ""⟩
        (some []) emptyStore with
     | (stOut, .ok id) => (getVar stOut id).map (fun v => v.value) ≠ some (.str "a||b")
     | (_, .error _) => True) :=
  doublebar_nonempty_fallback_not_verbatim pureHost testCollection
    ⟨"v", "t", .str "a||b", "STRING", .str "", ""⟩ [] emptyStore "a||b" "b"
    rfl rfl (by decide) (by decide) (by decide)

/-! ### C5: deletion-pass lemmas -/

theorem markRemoved_id (ids : List Nat) (v : FigmaVariable) :
    (markRemoved ids v).id = v.id := by
  simp only [markRemoved]
  by_cases h : v.id ∈ ids <;> simp [h]

theorem markRemoved_already (ids : List Nat) (v : FigmaVariable) (h : v.removed = true) :
    markRemoved ids v = v := by
  simp only [markRemoved]
  by_cases hm : v.id ∈ ids
  · rw [if_pos hm]
    cases v
    simp_all
  · rw [if_neg hm]

theorem markRemoved_comp (i : Nat) (ids : List Nat) (v : FigmaVariable) :
    markRemoved ids (markRemoved [i] v) = markRemoved (i :: ids) v := by
  simp only [markRemoved, List.mem_singleton, List.mem_cons]
  by_cases h1 : v.id = i
  · by_cases h2 : v.id ∈ ids <;> simp [h1, h2]
  · by_cases h2 : v.id ∈ ids <;> simp [h1, h2]

/-- Finding a member by id under id-uniqueness. -/
theorem find?_id_of_mem_nodup (l : List FigmaVariable) (v : FigmaVariable)
    (hmem : v ∈ l) (hnd : (l.map fun w => w.id).Nodup) :
    (l.find? fun w => decide (w.id = v.id)) = some v := by
  induction l with
  | nil => simp at hmem
  | cons x xs ih =>
    simp only [List.map_cons, List.nodup_cons, List.mem_map] at hnd
    rcases List.mem_cons.mp hmem with h | h
    · subst h
      exact List.find?_cons_of_pos _ (by simp)
    · have hx : ¬(x.id = v.id) := fun hc => hnd.1 ⟨v, h, hc.symm⟩
      rw [List.find?_cons_of_neg _ (by simpa using hx)]
      exact ih h hnd.2

/-- Looking a member up by id under id-uniqueness. -/
theorem getVar_of_mem_nodup (st : FigmaState) (v : FigmaVariable)
    (hmem : v ∈ st.vars) (hnd : (st.vars.map fun w => w.id).Nodup) :
    getVar st v.id = some v := by
  simp only [getVar]
  exact find?_id_of_mem_nodup st.vars v hmem hnd

/-- Two states with the same collections and counter agree once their
heaps do. -/
theorem figmaState_vars_congr (st : FigmaState) (l1 l2 : List FigmaVariable)
    (h : l1 = l2) :
    ({ st with vars := l1 } : FigmaState) = { st with vars := l2 } := by
  rw [h]

/-- Reading through a pointwise id-preserving rewrite of the heap. -/
theorem getVar_mapVars (st : FigmaState) (f : FigmaVariable → FigmaVariable)
    (hf : ∀ v, (f v).id = v.id) (j : Nat) :
    getVar { st with vars := st.vars.map f } j = (getVar st j).map f := by
  simp only [getVar, List.find?_map]
  have hp : ((fun w : FigmaVariable => decide (w.id = j)) ∘ f)
      = fun w : FigmaVariable => decide (w.id = j) := by
    funext w
    simp [Function.comp, hf w]
  rw [hp]

/-- A successful `removeVar` is the pointwise `markRemoved` of that id, and
witnesses a live cell carrying it. -/
theorem removeVar_ok_state (st : FigmaState) (i : Nat) (st' : FigmaState)
    (h : removeVar st i = .ok st') :
    st' = { st with vars := st.vars.map (markRemoved [i]) } ∧
      ∃ u ∈ st.vars, u.id = i ∧ u.removed = false := by
  simp only [removeVar] at h
  rcases hgv : getVar st i with _ | u
  · rw [hgv] at h
    simp at h
  · rw [hgv] at h
    dsimp only at h
    by_cases hrm : u.removed = true
    · rw [if_pos hrm] at h
      simp at h
    · rw [if_neg hrm] at h
      simp only [Except.ok.injEq] at h
      constructor
      · rw [← h]
        apply figmaState_vars_congr
        apply List.map_congr_left
        intro w _
        simp only [markRemoved, List.mem_singleton]
      · exact ⟨u, List.mem_of_find?_eq_some hgv, getVar_some_id st i u hgv,
          by simpa using hrm⟩

/-- A failed `removeVar` under id-uniqueness means no live cell carries
the id (so the `markRemoved` of that id is the identity). -/
theorem removeVar_error_no_live (st : FigmaState) (i : Nat) (e : String)
    (hnd : (st.vars.map fun w => w.id).Nodup)
    (h : removeVar st i = .error e) :
    ∀ v ∈ st.vars, ¬(v.removed = false ∧ v.id = i) := by
  rintro v hv ⟨hlive, hid⟩
  have hgv := getVar_of_mem_nodup st v hv hnd
  rw [hid] at hgv
  simp only [removeVar, hgv] at h
  rw [if_neg (by simp [hlive])] at h
  simp at h

/-- Exactly one live cell carries an id that a live member holds, under
id-uniqueness. -/
theorem countP_live_id_one (l : List FigmaVariable) (i : Nat)
    (hnd : (l.map fun w => w.id).Nodup) (u : FigmaVariable)
    (hu : u ∈ l) (hui : u.id = i) (hul : u.removed = false) :
    l.countP (fun v => !v.removed && decide (v.id = i)) = 1 := by
  induction l with
  | nil => simp at hu
  | cons x xs ih =>
    simp only [List.map_cons, List.nodup_cons, List.mem_map] at hnd
    rcases List.mem_cons.mp hu with h | h
    · subst h
      rw [List.countP_cons_of_pos _ _ (by simp [hui, hul])]
      have hzero : xs.countP (fun v => !v.removed && decide (v.id = i)) = 0 := by
        rw [List.countP_eq_zero]
        intro a ha hpa
        simp only [Bool.and_eq_true, decide_eq_true_eq] at hpa
        exact hnd.1 ⟨a, ha, by rw [hpa.2, hui]⟩
      rw [hzero]
    · have hx : ¬(x.id = i) := by
        intro hc
        exact hnd.1 ⟨u, h, by rw [hui, hc]⟩
      rw [List.countP_cons_of_neg _ _ (by simp [hx])]
      exact ih hnd.2 h

/-- Splitting a count over a disjoint boolean disjunction. -/
theorem countP_or_disjoint {α : Type} (l : List α) (p q : α → Bool)
    (hd : ∀ a ∈ l, ¬(p a = true ∧ q a = true)) :
    l.countP (fun a => p a || q a) = l.countP p + l.countP q := by
  induction l with
  | nil => simp
  | cons x xs ih =>
    have hxs : ∀ a ∈ xs, ¬(p a = true ∧ q a = true) :=
      fun a ha => hd a (List.mem_cons_of_mem _ ha)
    by_cases hp : p x = true
    · have hq : ¬(q x = true) := fun hc => hd x (List.mem_cons_self _ _) ⟨hp, hc⟩
      rw [List.countP_cons_of_pos _ _ (by simp [hp]), List.countP_cons_of_pos _ _ hp,
        List.countP_cons_of_neg _ _ hq, ih hxs]
      omega
    · by_cases hq : q x = true
      · rw [List.countP_cons_of_pos _ _ (by simp [hq]), List.countP_cons_of_neg _ _ hp,
          List.countP_cons_of_pos _ _ hq, ih hxs]
        omega
      · rw [List.countP_cons_of_neg _ _ (by simp [hp, hq]), List.countP_cons_of_neg _ _ hp,
          List.countP_cons_of_neg _ _ hq, ih hxs]

/-- The deletion fold marks exactly the listed ids removed and counts one
successful deletion per listed id that was live at entry (later
occurrences of the same id throw into the per-item catch and are not
counted). -/
theorem pass3_foldl_spec (l : List FigmaVariable) :
    ∀ (st : FigmaState) (n : Nat),
      (st.vars.map fun w => w.id).Nodup →
      (l.foldl
          (fun (acc : FigmaState × Nat) v =>
            match removeVar acc.1 v.id with
            | .ok st => (st, acc.2 + 1)
            | .error _ => acc)
          (st, n))
        = ({ st with vars := st.vars.map (markRemoved (l.map fun w => w.id)) },
           n + st.vars.countP fun v => !v.removed && decide (v.id ∈ l.map fun w => w.id)) := by
  induction l with
  | nil =>
    intro st n hnd
    simp only [List.foldl_nil, List.map_nil]
    rw [Prod.mk.injEq]
    constructor
    · have h1 : st.vars.map (markRemoved []) = st.vars :=
        List.map_id'' (fun v => by simp [markRemoved]) st.vars
      rw [h1]
    · have h2 : (st.vars.countP fun v => !v.removed && decide (v.id ∈ ([] : List Nat))) = 0 := by
        rw [List.countP_eq_zero]
        intro a _ hpa
        simp at hpa
      rw [h2]
      omega
  | cons w l ih =>
    intro st n hnd
    simp only [List.foldl_cons]
    rcases hrm : removeVar st w.id with e | st'
    · -- a throw: no live cell carries w.id
      have hnolive := removeVar_error_no_live st w.id e hnd hrm
      simp only [hrm]
      rw [ih st n hnd, Prod.mk.injEq]
      constructor
      · apply figmaState_vars_congr
        apply List.map_congr_left
        intro v hv
        by_cases hvr : v.removed = true
        · rw [markRemoved_already _ _ hvr, markRemoved_already _ _ hvr]
        · have hvid : ¬(v.id = w.id) := fun hc =>
            hnolive v hv ⟨by simpa using hvr, hc⟩
          simp only [markRemoved, List.map_cons, List.mem_cons]
          by_cases h2 : v.id ∈ l.map fun u => u.id
          · rw [if_pos h2, if_pos (Or.inr h2)]
          · rw [if_neg h2, if_neg (by simp [hvid, h2])]
      · simp only [List.map_cons]
        congr 1
        apply List.countP_congr
        intro v hv
        by_cases hvr : v.removed = true
        · simp [hvr]
        · have hvid : ¬(v.id = w.id) := fun hc =>
            hnolive v hv ⟨by simpa using hvr, hc⟩
          simp [hvr, hvid]
    · -- a successful removal
      obtain ⟨hst', u, hu, hui, hul⟩ := removeVar_ok_state st w.id st' hrm
      subst hst'
      have hnd' : ((st.vars.map (markRemoved [w.id])).map fun w => w.id).Nodup := by
        rw [List.map_map]
        have hc : ((fun w : FigmaVariable => w.id) ∘ markRemoved [w.id])
            = fun w : FigmaVariable => w.id := by
          funext v
          simp [Function.comp, markRemoved_id]
        rw [hc]
        exact hnd
      simp only [hrm]
      rw [ih _ (n + 1) hnd', Prod.mk.injEq]
      constructor
      · simp only [List.map_cons]
        apply figmaState_vars_congr
        rw [List.map_map]
        apply List.map_congr_left
        intro v _
        simp only [Function.comp]
        exact markRemoved_comp w.id _ v
      · simp only [List.map_cons]
        rw [List.countP_map]
        have hL : (st.vars.countP
              ((fun v => !v.removed && decide (v.id ∈ l.map fun w => w.id)) ∘ markRemoved [w.id]))
            = st.vars.countP (fun v => !v.removed && !decide (v.id = w.id)
                && decide (v.id ∈ l.map fun w => w.id)) := by
          apply List.countP_congr
          intro v _
          simp only [Function.comp, markRemoved, List.mem_singleton]
          by_cases hvw : v.id = w.id
          · simp [hvw]
          · simp [hvw]
        rw [hL]
        have hdisj : ∀ a ∈ st.vars,
            ¬((fun v => !v.removed && decide (v.id = w.id)) a = true ∧
              (fun v => !v.removed && !decide (v.id = w.id)
                && decide (v.id ∈ l.map fun w => w.id)) a = true) := by
          rintro v _ ⟨h1, h2⟩
          simp only [Bool.and_eq_true, Bool.not_eq_true', decide_eq_true_eq,
            decide_eq_false_iff_not] at h1 h2
          exact h2.1.2 h1.2
        have hsplit : (st.vars.countP
              fun v => !v.removed && decide (v.id ∈ w.id :: l.map fun w => w.id))
            = st.vars.countP (fun v => !v.removed && decide (v.id = w.id))
              + st.vars.countP (fun v => !v.removed && !decide (v.id = w.id)
                  && decide (v.id ∈ l.map fun w => w.id)) := by
          rw [← countP_or_disjoint st.vars _ _ hdisj]
          apply List.countP_congr
          intro v _
          by_cases hvr : v.removed = true
          · simp [hvr]
          · by_cases h1 : v.id = w.id
            · simp [hvr, h1]
            · by_cases h2 : v.id ∈ l.map fun w => w.id <;> simp [hvr, h1, h2]
        rw [hsplit, countP_live_id_one st.vars w.id hnd u hu hui hul]
        omega

/-- C5.  The deletion pass characterized, under id-uniqueness of the heap:
(1) an entry is flipped to removed exactly when its id is in the stale
reference array, it belongs to the target collection, and its full name is
absent from the batch's name set — every other entry is returned unchanged;
(2) the deleted count counts each such live entry exactly once; and
(3) with `deleteRemovedVariables = false` a full run reports zero
deletions. -/
theorem pass3_prunes_only_unmatched_once
    (names : List String) (cid : String) (arr : List Nat) (st : FigmaState)
    (hnd : (st.vars.map fun w => w.id).Nodup) :
    (∀ v ∈ st.vars,
        getVar (pass3 names cid arr st).1 v.id
          = some (if v.id ∈ arr ∧ v.variableCollectionId = cid
                      ∧ names.contains v.name = false
                  then { v with removed := true } else v))
    ∧ (pass3 names cid arr st).2
        = st.vars.countP (fun v => !v.removed && decide (v.id ∈ arr)
            && decide (v.variableCollectionId = cid) && !names.contains v.name)
    ∧ (∀ (host : Host) (settings : ImportSettings) (vs : List NotionVariable)
          (st0 stF : FigmaState) (res : ImportResult),
        settings.deleteRemovedVariables = false →
        handleImportFromNotion host settings vs st0 = .ok (stF, res) →
        res.deleted = 0) := by
  have hiff : ∀ v ∈ st.vars,
      (v.id ∈ (((arrVars st arr).filter fun u => u.variableCollectionId = cid).filter
          fun u => !names.contains u.name).map fun w => w.id)
        ↔ (v.id ∈ arr ∧ v.variableCollectionId = cid ∧ names.contains v.name = false) := by
    intro v hv
    constructor
    · intro hmem
      rcases List.mem_map.mp hmem with ⟨u, hu, huid⟩
      rcases List.mem_filter.mp hu with ⟨hu1, hu2⟩
      rcases List.mem_filter.mp hu1 with ⟨hu3, hu4⟩
      rcases List.mem_filterMap.mp (by simpa [arrVars] using hu3) with ⟨j, hj, hgj⟩
      have humem : u ∈ st.vars := by
        simp only [getVar] at hgj
        exact List.mem_of_find?_eq_some hgj
      have hueq : u = v := by
        have h1 := getVar_of_mem_nodup st u humem hnd
        have h2 := getVar_of_mem_nodup st v hv hnd
        rw [huid] at h1
        exact Option.some_inj.mp (h1.symm.trans h2)
      have hjid : u.id = j := getVar_some_id st j u hgj
      subst hueq
      refine ⟨hjid ▸ hj, by simpa using hu4, by simpa using hu2⟩
    · rintro ⟨h1, h2, h3⟩
      apply List.mem_map.mpr
      refine ⟨v, ?_, rfl⟩
      apply List.mem_filter.mpr
      refine ⟨?_, by simpa using h3⟩
      apply List.mem_filter.mpr
      refine ⟨?_, by simpa using h2⟩
      simp only [arrVars]
      exact List.mem_filterMap.mpr ⟨v.id, h1, getVar_of_mem_nodup st v hv hnd⟩
  have hp3 : pass3 names cid arr st
      = ({ st with vars := st.vars.map (markRemoved
            ((((arrVars st arr).filter fun u => u.variableCollectionId = cid).filter
                fun u => !names.contains u.name).map fun w => w.id)) },
         0 + st.vars.countP fun v => !v.removed && decide (v.id ∈
            ((((arrVars st arr).filter fun u => u.variableCollectionId = cid).filter
                fun u => !names.contains u.name).map fun w => w.id))) :=
    pass3_foldl_spec _ st 0 hnd
  refine ⟨?_, ?_, ?_⟩
  · intro v hv
    have hfst : (pass3 names cid arr st).1
        = { st with vars := st.vars.map (markRemoved
            ((((arrVars st arr).filter fun u => u.variableCollectionId = cid).filter
                fun u => !names.contains u.name).map fun w => w.id)) } := by
      rw [hp3]
    rw [hfst, getVar_mapVars st _ (markRemoved_id _) v.id,
        getVar_of_mem_nodup st v hv hnd, Option.map_some']
    congr 1
    simp only [markRemoved]
    by_cases hc : v.id ∈ arr ∧ v.variableCollectionId = cid
        ∧ names.contains v.name = false
    · rw [if_pos ((hiff v hv).mpr hc), if_pos hc]
    · rw [if_neg (fun hm => hc ((hiff v hv).mp hm)), if_neg hc]
  · have hsnd : (pass3 names cid arr st).2
        = 0 + st.vars.countP (fun v => !v.removed && decide (v.id ∈
            ((((arrVars st arr).filter fun u => u.variableCollectionId = cid).filter
                fun u => !names.contains u.name).map fun w => w.id))) := by
      rw [hp3]
    rw [hsnd, Nat.zero_add]
    apply List.countP_congr
    intro v hv
    have hiv := hiff v hv
    by_cases hvr : v.removed = true
    · simp [hvr]
    · have hvf : v.removed = false := by simpa using hvr
      by_cases h1 : v.id ∈ arr
      · by_cases h2 : v.variableCollectionId = cid
        · rcases hct : names.contains v.name with _ | _
          · have hm := hiv.mpr ⟨h1, h2, hct⟩
            simp only [hvf, hct, decide_eq_true hm, decide_eq_true h1, decide_eq_true h2]
            simp
          · have hm : ¬v.id ∈ (((arrVars st arr).filter
                fun u => u.variableCollectionId = cid).filter
                  fun u => !names.contains u.name).map fun w => w.id := by
              intro h
              have h3 := (hiv.mp h).2.2
              rw [hct] at h3
              exact absurd h3 (by decide)
            simp only [hvf, hct, decide_eq_false hm, decide_eq_true h1, decide_eq_true h2]
            simp
        · have hm : ¬v.id ∈ (((arrVars st arr).filter
              fun u => u.variableCollectionId = cid).filter
                fun u => !names.contains u.name).map fun w => w.id :=
            fun h => h2 ((hiv.mp h).2.1)
          simp only [hvf, decide_eq_false hm, decide_eq_false h2]
          simp
      · have hm : ¬v.id ∈ (((arrVars st arr).filter
            fun u => u.variableCollectionId = cid).filter
              fun u => !names.contains u.name).map fun w => w.id :=
          fun h => h1 ((hiv.mp h).1)
        simp only [hvf, decide_eq_false hm, decide_eq_false h1]
        simp
  · intro host settings vs st0 stF res hflag hrun
    unfold handleImportFromNotion at hrun
    split at hrun
    · exact absurd hrun (by simp)
    · dsimp only at hrun
      rcases hcc : createVariableCollection
          (if settings.collectionName = "" then "Design Tokens" else settings.collectionName)
          settings.createNewCollection st0 with e | p
      · rw [hcc] at hrun
        simp only [Except.instMonad, Monad.toBind, Bind.bind, Except.bind] at hrun
        exact absurd hrun (by simp)
      · rw [hcc] at hrun
        rcases p with ⟨st1, coll⟩
        rw [hflag] at hrun
        simp only [Except.instMonad, Monad.toBind, Bind.bind, Except.bind] at hrun
        simp only [Bool.false_eq_true, if_false, Except.ok.injEq, Prod.mk.injEq] at hrun
        rw [← hrun.2]

/-! ### C6: per-item catch accounting -/

/-- Every pass-1 iteration lands in exactly one of skip / import / error,
and an error appends exactly one `(name, reason)` entry. -/
theorem pass1Step_accounting (host : Host) (collection : VariableCollection)
    (m : List (String × NotionVariable)) (ow : Bool) (s : Pass1State)
    (nvar : NotionVariable) :
    (pass1Step host collection m ow s nvar).imported
        + (pass1Step host collection m ow s nvar).skipped
        + (pass1Step host collection m ow s nvar).errors
      = s.imported + s.skipped + s.errors + 1
    ∧ (pass1Step host collection m ow s nvar).importErrors.length + s.errors
      = s.importErrors.length + (pass1Step host collection m ow s nvar).errors := by
  unfold pass1Step
  dsimp only
  repeat' split
  all_goals refine ⟨?_, ?_⟩ <;> simp <;> omega

/-- Pass-1 fold accounting, generalized over the starting state. -/
theorem pass1_fold_accounting (host : Host) (collection : VariableCollection)
    (m : List (String × NotionVariable)) (ow : Bool) (vs : List NotionVariable) :
    ∀ s : Pass1State,
      (vs.foldl (pass1Step host collection m ow) s).imported
          + (vs.foldl (pass1Step host collection m ow) s).skipped
          + (vs.foldl (pass1Step host collection m ow) s).errors
        = s.imported + s.skipped + s.errors + vs.length
      ∧ (vs.foldl (pass1Step host collection m ow) s).importErrors.length + s.errors
        = s.importErrors.length + (vs.foldl (pass1Step host collection m ow) s).errors := by
  induction vs with
  | nil =>
    intro s
    simp
  | cons t ts ih =>
    intro s
    simp only [List.foldl_cons, List.length_cons]
    obtain ⟨h1, h2⟩ := ih (pass1Step host collection m ow s t)
    obtain ⟨g1, g2⟩ := pass1Step_accounting host collection m ow s t
    exact ⟨by omega, by omega⟩

/-- Pass 1 processes every token of the batch exactly once, whatever the
host throws. -/
theorem pass1_accounting (host : Host) (collection : VariableCollection)
    (m : List (String × NotionVariable)) (ow : Bool) (vs : List NotionVariable)
    (st : FigmaState) (arr : List Nat) :
    (pass1 host collection m ow vs st arr).imported
        + (pass1 host collection m ow vs st arr).skipped
        + (pass1 host collection m ow vs st arr).errors
      = vs.length
    ∧ (pass1 host collection m ow vs st arr).importErrors.length
      = (pass1 host collection m ow vs st arr).errors := by
  obtain ⟨h1, h2⟩ := pass1_fold_accounting host collection m ow vs
    ⟨st, arr, 0, 0, 0, [], []⟩
  unfold pass1
  exact ⟨by simpa using h1, by simpa using h2⟩

/-- C6.  A single token's failing write is caught at the item boundary:
for every run that returns a summary at all, every token of the batch is
accounted exactly once (imported + skipped + errors = total = batch
length) and the error list carries exactly one `(name, reason)` entry per
error; at the spec's own "Token #3 of 5" scenario — a host throwing only
on `tok3` — the summary reports 4 successes and 1 failure naming `tok3`
with the wrapped reason. -/
theorem partial_failure_isolated :
    (∀ (host : Host) (settings : ImportSettings) (vs : List NotionVariable)
        (st0 stF : FigmaState) (res : ImportResult),
      handleImportFromNotion host settings vs st0 = .ok (stF, res) →
      res.total = vs.length
      ∧ res.imported + res.skipped + res.errors = res.total
      ∧ res.importErrors.length = res.errors)
    ∧ c6Run = some ⟨4, 0, 0, 1, [("tok3", "Failed to set value for tok3: boom")], 5⟩ := by
  constructor
  · intro host settings vs st0 stF res hrun
    unfold handleImportFromNotion at hrun
    split at hrun
    · exact absurd hrun (by simp)
    · dsimp only at hrun
      rcases hcc : createVariableCollection
          (if settings.collectionName = "" then "Design Tokens" else settings.collectionName)
          settings.createNewCollection st0 with e | p
      · rw [hcc] at hrun
        simp only [Except.instMonad, Monad.toBind, Bind.bind, Except.bind] at hrun
        exact absurd hrun (by simp)
      · rw [hcc] at hrun
        rcases p with ⟨st1, coll⟩
        simp only [Except.instMonad, Monad.toBind, Bind.bind, Except.bind,
          Except.ok.injEq, Prod.mk.injEq] at hrun
        obtain ⟨hacc1, hacc2⟩ := pass1_accounting host coll
          ((getExistingVariables (some coll.id) st1).map fun v =>
            (if v.group ≠ "" then v.group ++ "/" ++ v.name else v.name, v))
          settings.overwriteExisting vs st1 (liveIds st1)
        rw [← hrun.2]
        exact ⟨rfl, hacc1, hacc2⟩
  · decide

/-- C6 witness: the concrete five-token run with the failing third write
does return a summary, and the general accounting applies to it. -/
theorem partial_failure_isolated_witness :
    ∃ stF res,
      handleImportFromNotion c6Host (testSettings true false) c6Tokens emptyStore = .ok (stF, res)
      ∧ res.imported + res.skipped + res.errors = res.total
      ∧ res.importErrors.length = res.errors := by
  rcases hr : handleImportFromNotion c6Host (testSettings true false) c6Tokens emptyStore
      with e | q
  · have hsome : (handleImportFromNotion c6Host (testSettings true false) c6Tokens
        emptyStore).toOption.isSome = true := by decide
    rw [hr] at hsome
    simp [Except.toOption] at hsome
  · rcases q with ⟨stF, res⟩
    have h := partial_failure_isolated.1 c6Host (testSettings true false) c6Tokens
      emptyStore stF res hr
    exact ⟨stF, res, rfl, h.2.1, h.2.2⟩

/-- C5 witness: the repository's pruning scenario — two live variables in
the target collection, the batch naming only the first — satisfies the
id-uniqueness hypothesis, and the deletion pass deletes exactly the one
unmatched entry, exactly once. -/
theorem pass3_prunes_only_unmatched_once_witness :
    ((c5Store.vars.map fun w => w.id).Nodup)
    ∧ (pass3 ["Color/Primary/blue-500"] "collection-1" [0, 1] c5Store).2
        = c5Store.vars.countP (fun v => !v.removed && decide (v.id ∈ [0, 1])
            && decide (v.variableCollectionId = "collection-1")
            && !(["Color/Primary/blue-500"].contains v.name))
    ∧ (pass3 ["Color/Primary/blue-500"] "collection-1" [0, 1] c5Store).2 = 1 := by
  refine ⟨by decide, ?_, by decide⟩
  exact (pass3_prunes_only_unmatched_once ["Color/Primary/blue-500"] "collection-1"
    [0, 1] c5Store (by decide)).2.1

/-! ### C7: the per-run fetch cache -/

theorem fetchInv_empty : FetchInv ⟨[], []⟩ := by
  constructor
  · exact List.nodup_nil
  · intro i hi
    simp at hi

/-- A successful `cachedFetch` preserves the cache invariant: on a cache
hit nothing changes, on a miss the id was never fetched before and is now
cached. -/
theorem cachedFetch_inv (db : String → Option NotionPage) (id : String)
    (fs : FetchState) (pg : NotionPage) (fs' : FetchState)
    (hinv : FetchInv fs) (h : cachedFetch db id fs = .ok (pg, fs')) :
    FetchInv fs' := by
  unfold cachedFetch at h
  rcases hfind : (fs.pageCache.find? fun kv => kv.1 = id).map (·.2) with _ | pg0
  · rw [hfind] at h
    rcases hfp : fetchPage db id fs with e | q
    · rw [hfp] at h
      exact absurd h (by simp)
    · rw [hfp] at h
      rcases q with ⟨pg1, fs1⟩
      unfold fetchPage at hfp
      rcases hdb : db id with _ | pg2
      · rw [hdb] at hfp
        exact absurd hfp (by simp)
      · rw [hdb] at hfp
        simp only [Except.ok.injEq, Prod.mk.injEq] at hfp h
        obtain ⟨hpg1, hfs1⟩ := hfp
        obtain ⟨hpg, hfs'⟩ := h
        subst hfs1
        dsimp only at hfs'
        subst hfs'
        have hnone : (fs.pageCache.find? fun kv => kv.1 = id) = none := by
          rcases hf : fs.pageCache.find? fun kv => kv.1 = id with _ | kv
          · exact hf
          · rw [hf] at hfind
            simp at hfind
        have hnotfetched : ¬ id ∈ fs.fetched := by
          intro hmem
          have hsome := hinv.2 id hmem
          rw [hnone] at hsome
          simp at hsome
        constructor
        · dsimp only
          rw [List.nodup_append]
          refine ⟨hinv.1, List.nodup_singleton id, ?_⟩
          intro a ha hb
          simp only [List.mem_singleton] at hb
          exact hnotfetched (hb ▸ ha)
        · intro i hi
          dsimp only at hi ⊢
          rw [List.find?_append]
          rcases List.mem_append.mp hi with hm | hm
          · have hsome := hinv.2 i hm
            rcases hf : fs.pageCache.find? fun kv => kv.1 = i with _ | kv
            · rw [hf] at hsome
              simp at hsome
            · simp [hf, Option.or]
          · simp only [List.mem_singleton] at hm
            subst hm
            rw [hnone]
            simp [Option.or]
  · rw [hfind] at h
    simp only [Except.ok.injEq, Prod.mk.injEq] at h
    rw [← h.2]
    exact hinv

/-- The rollup-alias resolution preserves the cache invariant. -/
theorem resolveRollupTarget_inv (db : String → Option NotionPage)
    (nameKey groupKey interior : String) (relId : Option String) (fs : FetchState)
    (hinv : FetchInv fs) :
    FetchInv (resolveRollupTarget db nameKey groupKey interior relId fs).1 := by
  unfold resolveRollupTarget
  rcases relId with _ | rid
  · exact hinv
  · dsimp only
    rcases hcf : cachedFetch db rid fs with e | q
    · exact hinv
    · rcases q with ⟨related, fs2⟩
      have hinv2 := cachedFetch_inv db rid fs related fs2 hinv hcf
      dsimp only
      split
      · exact hinv2
      · split
        · exact hinv2
        · exact hinv2

/-- The bare-relation resolution preserves the cache invariant. -/
theorem resolveRelationValue_inv (db : String → Option NotionPage)
    (nameKey groupKey : String) (pageIdToVarName : List (String × String))
    (rid : String) (value0 : JsValue) (fs : FetchState)
    (hinv : FetchInv fs) :
    FetchInv (resolveRelationValue db nameKey groupKey pageIdToVarName rid value0 fs).1 := by
  unfold resolveRelationValue
  dsimp only
  split
  · exact hinv
  · rcases hcf : cachedFetch db rid fs with e | q
    · exact hinv
    · rcases q with ⟨related, fs2⟩
      have hinv2 := cachedFetch_inv db rid fs related fs2 hinv hcf
      dsimp only
      repeat' split
      all_goals first
        | exact hinv2
        | (rename_i relatedPage fs3 heq
           exact cachedFetch_inv db rid fs2 relatedPage fs3 hinv2 heq)

set_option maxHeartbeats 2000000 in
/-- A successful single-page transformation preserves the cache
invariant. -/
theorem transformPage_inv (db : String → Option NotionPage)
    (nk vk tk gk dk uk : String) (idx : List (String × String))
    (page : NotionPage) (fs : FetchState) (item : NotionVariable) (fs' : FetchState)
    (hinv : FetchInv fs)
    (h : transformPage db nk vk tk gk dk uk idx page fs = .ok (item, fs')) :
    FetchInv fs' := by
  unfold transformPage at h
  simp only [Except.instMonad, Monad.toBind, Bind.bind, Except.bind] at h
  repeat' split at h
  all_goals first
    | exact Except.noConfusion h
    | (simp only [Except.ok.injEq, Prod.mk.injEq] at h
       rw [← h.2]
       first
         | exact hinv
         | (apply resolveRelationValue_inv
            first
              | exact hinv
              | (apply resolveRollupTarget_inv
                 exact hinv))
         | (apply resolveRollupTarget_inv
            exact hinv))

/-- The page loop preserves the cache invariant. -/
theorem transformLoop_inv (db : String → Option NotionPage)
    (nk vk tk gk dk uk : String) (idx : List (String × String)) :
    ∀ (pages : List NotionPage) (fs : FetchState) (acc : List NotionVariable),
      FetchInv fs →
      FetchInv (transformLoop db nk vk tk gk dk uk idx pages fs acc).2 := by
  intro pages
  induction pages with
  | nil =>
    intro fs acc hinv
    exact hinv
  | cons page rest ih =>
    intro fs acc hinv
    unfold transformLoop
    rcases htp : transformPage db nk vk tk gk dk uk idx page fs with e | q
    · exact hinv
    · rcases q with ⟨item, fs2⟩
      exact ih fs2 (acc ++ [item])
        (transformPage_inv db nk vk tk gk dk uk idx page fs item fs2 hinv htp)

/-- C7 (amended).  Relation-target resolution is fetch-once per run: the
list of ids actually fetched by a whole `transformNotionResponse` batch
has no duplicates (the per-run cache is consulted before every fetch),
and whenever the same-batch `pageIdToVarName` index does answer — which
happens only in the bare-relation (`!value`) branch — no fetch at all is
performed. -/
theorem relation_fetch_cached_never_twice :
    (∀ (db : String → Option NotionPage) (raw : List NotionPage)
        (mappings : Option (List FieldMapping)),
      (transformNotionResponse db raw mappings).2.fetched.Nodup)
    ∧ (∀ (db : String → Option NotionPage) (nk gk : String)
          (idx : List (String × String)) (rid : String) (v : JsValue) (fs : FetchState),
        (jsMapGet idx rid).getD "" ≠ "" →
        (resolveRelationValue db nk gk idx rid v fs).1 = fs) := by
  constructor
  · intro db raw mappings
    unfold transformNotionResponse
    dsimp only
    split
    · exact List.nodup_nil
    · exact (transformLoop_inv db _ _ _ _ _ _ _ raw ⟨[], []⟩ [] fetchInv_empty).1
  · intro db nk gk idx rid v fs hhit
    unfold resolveRelationValue
    dsimp only
    rw [if_pos hhit]

/-- C7 counterexample: the claim says a rollup-alias whose relation target
is in the same batch is resolved from the `recordId → canonicalPath`
index with no `fetchById` call.  In this two-page batch the index does
hold the target (`p2`), yet the run fetches `p2`: the rollup-alias branch
never consults the index and goes straight to the cached fetch. -/
theorem rollup_alias_fetches_same_batch_target :
    (buildPageIdIndex "Name" "Group" c7Pages).toOption.map (·.map (·.1))
        = some ["p1", "p2"]
    ∧ (transformNotionResponse c7Db c7Pages none).2.fetched = ["p2"]
    ∧ ((transformNotionResponse c7Db c7Pages none).1.toOption.map (·.map (·.value)))
        = some [.str "{B}||#112233", .str "#112233"] := by
  decide

/-- C7 witness: the amended rule applied at the concrete scenario — an
index hit in the bare-relation branch performs no fetch, and the
two-page run's fetched-id list has no duplicates. -/
theorem relation_fetch_cached_never_twice_witness :
    ((jsMapGet [("p2", "B")] "p2").getD "" ≠ "")
    ∧ (resolveRelationValue c7Db "Name" "Group" [("p2", "B")] "p2" (.str "") ⟨[], []⟩).1
        = ⟨[], []⟩
    ∧ (transformNotionResponse c7Db c7Pages none).2.fetched.Nodup := by
  refine ⟨by decide, ?_, ?_⟩
  · exact relation_fetch_cached_never_twice.2 c7Db "Name" "Group" [("p2", "B")] "p2"
      (.str "") ⟨[], []⟩ (by decide)
  · exact relation_fetch_cached_never_twice.1 c7Db c7Pages none

/-- C4.  Forward reference: token `a` (`"{b}||fb"`) precedes its target
`b` in the batch.  Pass 1 writes `a` with the parsed fallback scalar
`"fb"` and registers the created variable (ids `[0, 1]` in the reference
array, both counted as imported); pass 2 then re-resolves `a` to a native
alias of `b`'s entry (id 1), which is also the end-to-end result of the
full run. -/
theorem forward_reference_resolved :
    (((pass1 pureHost testCollection [] true c4Tokens emptyStore []).st.vars.filter
        fun v => v.name = "a").map fun v => v.value) = [.str "fb"]
    ∧ (pass1 pureHost testCollection [] true c4Tokens emptyStore []).arr = [0, 1]
    ∧ (pass1 pureHost testCollection [] true c4Tokens emptyStore []).imported = 2
    ∧ (((pass2 pureHost testCollection
          (pass1 pureHost testCollection [] true c4Tokens emptyStore []).arr
          (pass1 pureHost testCollection [] true c4Tokens emptyStore []).toks
          (pass1 pureHost testCollection [] true c4Tokens emptyStore []).st).vars.filter
        fun v => v.name = "a").map fun v => v.value) = [.alias 1]
    ∧ ((handleImportFromNotion pureHost (testSettings true false) c4Tokens emptyStore).toOption.map
        fun p => (((p.1.vars.filter fun v => v.name = "a").map fun v => v.value),
                  ((p.1.vars.filter fun v => v.name = "b").map fun v => v.id)))
        = some ([.alias 1], [1]) := by
  decide

/-! ### C1: locality of the write path and skip accounting -/

theorem storeInv_createVar (st : FigmaState) (n cid : String) (t : FigmaVarType)
    (hinv : StoreInv st) : StoreInv (createVar st n cid t).1 := by
  obtain ⟨hnd, hlt⟩ := hinv
  constructor
  · show (((st.vars ++ [(⟨st.nextId, n, cid, t, defaultVarValue t, JsValue.str "", false⟩ :
        FigmaVariable)]).map fun w => w.id)).Nodup
    rw [List.map_append, List.nodup_append]
    refine ⟨hnd, List.nodup_singleton _, ?_⟩
    intro a ha hb
    simp only [List.map_cons, List.map_nil, List.mem_singleton] at hb
    rcases List.mem_map.mp ha with ⟨v, hv, hvid⟩
    have hl := hlt v hv
    rw [hb] at hvid
    omega
  · intro v hv
    show v.id < st.nextId + 1
    simp only [createVar, List.mem_append, List.mem_singleton] at hv
    rcases hv with hv | hv
    · have := hlt v hv
      omega
    · subst hv
      exact Nat.lt_succ_self _

/-- A pointwise id-preserving heap rewrite keeps the store well-formed. -/
theorem storeInv_mapIdPres (st : FigmaState) (f : FigmaVariable → FigmaVariable)
    (hf : ∀ v, (f v).id = v.id) (hinv : StoreInv st) :
    StoreInv { st with vars := st.vars.map f } := by
  obtain ⟨hnd, hlt⟩ := hinv
  constructor
  · show ((st.vars.map f).map fun w => w.id).Nodup
    rw [List.map_map]
    have hc : ((fun w : FigmaVariable => w.id) ∘ f) = fun w : FigmaVariable => w.id := by
      funext v
      simp [Function.comp, hf v]
    rw [hc]
    exact hnd
  · intro v hv
    show v.id < st.nextId
    rcases List.mem_map.mp hv with ⟨u, hu, huf⟩
    have hl := hlt u hu
    have hid : v.id = u.id := by
      rw [← huf]
      exact hf u
    omega

/-- Stage 1 (`findOrCreate`) locality: the heap is only appended to, every
existing cell is readable unchanged, and the returned target id belongs to
no cell of another name. -/
theorem findOrCreate_locality (c : VariableCollection) (vn : String) (ft : FigmaVarType)
    (arr : List Nat) (st : FigmaState) (st1 : FigmaState) (fid : Nat)
    (hinv : StoreInv st) (heq : findOrCreate c vn ft arr st = (st1, fid)) :
    StoreInv st1 ∧ (∀ v ∈ st.vars, getVar st1 v.id = some v)
    ∧ (∀ v ∈ st1.vars, v.name ≠ vn → v.id ≠ fid) := by
  simp only [findOrCreate] at heq
  rcases hh : (((arrVars st arr).filter fun v => v.variableCollectionId = c.id).filter
      fun v => v.name = vn).head? with _ | u
  · rw [hh] at heq
    have heqc : createVar st vn c.id ft = (st1, fid) := heq
    have h1 : (createVar st vn c.id ft).1 = st1 := by rw [heqc]
    have h2 : (createVar st vn c.id ft).2 = fid := by rw [heqc]
    subst h1
    subst h2
    refine ⟨storeInv_createVar st vn c.id ft hinv, ?_, ?_⟩
    · intro v hv
      exact getVar_createVar_of_some st vn c.id ft v.id v (getVar_of_mem_nodup st v hv hinv.1)
    · intro v hv hname
      show v.id ≠ st.nextId
      simp only [createVar, List.mem_append, List.mem_singleton] at hv
      rcases hv with hv | hv
      · have := hinv.2 v hv
        omega
      · exact absurd (by rw [hv] : v.name = vn) hname
  · rw [hh] at heq
    have heqc : ((st, u.id) : FigmaState × Nat) = (st1, fid) := heq
    simp only [Prod.mk.injEq] at heqc
    obtain ⟨h1, h2⟩ := heqc
    subst h1
    refine ⟨hinv, ?_, ?_⟩
    · intro v hv
      exact getVar_of_mem_nodup st v hv hinv.1
    · intro v hv hname
      rw [← h2]
      have humem : u ∈ ((arrVars st arr).filter fun v => v.variableCollectionId = c.id).filter
          fun v => v.name = vn := by
        apply List.mem_of_mem_head?
        rw [hh]
        rfl
      rcases List.mem_filter.mp humem with ⟨hu1, hu2⟩
      rcases List.mem_filter.mp hu1 with ⟨hu3, _⟩
      have huname : u.name = vn := by simpa using hu2
      have humem2 : u ∈ st.vars := List.mem_of_find?_eq_some (mem_arrVars_getVar st arr u hu3)
      intro hid
      have hv1 := getVar_of_mem_nodup st v hv hinv.1
      have hv2 := getVar_of_mem_nodup st u humem2 hinv.1
      rw [hid] at hv1
      have : v = u := Option.some_inj.mp (hv1.symm.trans hv2)
      rw [this, huname] at hname
      exact hname rfl

/-- Stage 2 (`recreateOnMismatch`) locality. -/
theorem recreateOnMismatch_locality (c : VariableCollection) (vn : String)
    (ft : FigmaVarType) (st : FigmaState) (figId : Nat) (st2 : FigmaState)
    (r : Except String Nat) (hinv : StoreInv st)
    (hsafe : ∀ v ∈ st.vars, v.name ≠ vn → v.id ≠ figId)
    (heq : recreateOnMismatch c vn ft st figId = (st2, r)) :
    StoreInv st2
    ∧ (∀ v ∈ st.vars, v.name ≠ vn → getVar st2 v.id = some v)
    ∧ (∀ nid, r = .ok nid → ∀ v ∈ st2.vars, v.name ≠ vn → v.id ≠ nid) := by
  simp only [recreateOnMismatch] at heq
  rcases hgv : getVar st figId with _ | u
  · rw [hgv] at heq
    have heqc : ((st, Except.ok figId) : FigmaState × Except String Nat) = (st2, r) := heq
    simp only [Prod.mk.injEq] at heqc
    obtain ⟨h1, h2⟩ := heqc
    subst h1
    refine ⟨hinv, ?_, ?_⟩
    · intro v hv _
      exact getVar_of_mem_nodup st v hv hinv.1
    · intro nid hr v hv hname
      rw [← h2] at hr
      simp only [Except.ok.injEq] at hr
      rw [← hr]
      exact hsafe v hv hname
  · rw [hgv] at heq
    dsimp only at heq
    by_cases hty : u.resolvedType ≠ ft
    · rw [if_pos hty] at heq
      rcases hrm : removeVar st figId with e | stR
      · rw [hrm] at heq
        have heqc : ((st, Except.error e) : FigmaState × Except String Nat) = (st2, r) := heq
        simp only [Prod.mk.injEq] at heqc
        obtain ⟨h1, h2⟩ := heqc
        subst h1
        refine ⟨hinv, ?_, ?_⟩
        · intro v hv _
          exact getVar_of_mem_nodup st v hv hinv.1
        · intro nid hr
          rw [← h2] at hr
          exact absurd hr (by simp)
      · rw [hrm] at heq
        obtain ⟨hstR, -⟩ := removeVar_ok_state st figId stR hrm
        have hinvR : StoreInv stR := by
          rw [hstR]
          exact storeInv_mapIdPres st (markRemoved [figId]) (markRemoved_id _) hinv
        have hcellR : ∀ v ∈ st.vars, v.name ≠ vn → getVar stR v.id = some v := by
          intro v hv hname
          rw [hstR, getVar_mapVars st _ (markRemoved_id _) v.id,
            getVar_of_mem_nodup st v hv hinv.1, Option.map_some']
          have hmk : markRemoved [figId] v = v := by
            simp only [markRemoved, List.mem_singleton]
            rw [if_neg (hsafe v hv hname)]
          rw [hmk]
        have heqc : (((createVar stR vn c.id ft).1,
            Except.ok (createVar stR vn c.id ft).2) : FigmaState × Except String Nat)
            = (st2, r) := heq
        simp only [Prod.mk.injEq] at heqc
        obtain ⟨h1, h2⟩ := heqc
        subst h1
        refine ⟨storeInv_createVar stR vn c.id ft hinvR, ?_, ?_⟩
        · intro v hv hname
          exact getVar_createVar_of_some stR vn c.id ft v.id v (hcellR v hv hname)
        · intro nid hr v hv hname
          rw [← h2] at hr
          simp only [Except.ok.injEq] at hr
          rw [← hr]
          show v.id ≠ stR.nextId
          simp only [createVar, List.mem_append, List.mem_singleton] at hv
          rcases hv with hv | hv
          · have := hinvR.2 v hv
            omega
          · exact absurd (by rw [hv] : v.name = vn) hname
    · rw [if_neg hty] at heq
      have heqc : ((st, Except.ok figId) : FigmaState × Except String Nat) = (st2, r) := heq
      simp only [Prod.mk.injEq] at heqc
      obtain ⟨h1, h2⟩ := heqc
      subst h1
      refine ⟨hinv, ?_, ?_⟩
      · intro v hv _
        exact getVar_of_mem_nodup st v hv hinv.1
      · intro nid hr v hv hname
        rw [← h2] at hr
        simp only [Except.ok.injEq] at hr
        rw [← hr]
        exact hsafe v hv hname

/-- Stage 3 (`setStep`) locality: only the target cell is written. -/
theorem setStep_locality (host : Host) (vn : String) (val d : JsValue)
    (st : FigmaState) (figId : Nat) (st3 : FigmaState) (r : Except String Nat)
    (hinv : StoreInv st)
    (hsafe : ∀ v ∈ st.vars, v.name ≠ vn → v.id ≠ figId)
    (heq : setStep host vn val d st figId = (st3, r)) :
    StoreInv st3
    ∧ ∀ v ∈ st.vars, v.name ≠ vn → getVar st3 v.id = some v := by
  have hVinv : StoreInv (setVarValue st figId val) :=
    storeInv_mapIdPres st _ (fun w => by by_cases hw : w.id = figId <;> simp [hw]) hinv
  have hVcell : ∀ v ∈ st.vars, v.name ≠ vn → getVar (setVarValue st figId val) v.id = some v := by
    intro v hv hname
    rw [getVar_setVarValue, getVar_of_mem_nodup st v hv hinv.1, Option.map_some',
      if_neg (hsafe v hv hname)]
  have hDinv : StoreInv (setVarDescription (setVarValue st figId val) figId d) :=
    storeInv_mapIdPres (setVarValue st figId val) _
      (fun w => by by_cases hw : w.id = figId <;> simp [hw]) hVinv
  have hDcell : ∀ v ∈ st.vars, v.name ≠ vn →
      getVar (setVarDescription (setVarValue st figId val) figId d) v.id = some v := by
    intro v hv hname
    rw [getVar_setVarDescription, hVcell v hv hname, Option.map_some',
      if_neg (hsafe v hv hname)]
  simp only [setStep] at heq
  rcases hsf : host.setFail vn with _ | msg
  · rw [hsf] at heq
    rcases hgv : getVar st figId with _ | u
    · rw [hgv] at heq
      have heqc : ((st, Except.ok figId) : FigmaState × Except String Nat) = (st3, r) := heq
      simp only [Prod.mk.injEq] at heqc
      rw [← heqc.1]
      exact ⟨hinv, fun v hv _ => getVar_of_mem_nodup st v hv hinv.1⟩
    · rw [hgv] at heq
      dsimp only at heq
      by_cases hrm : u.removed = true
      · rw [if_pos hrm] at heq
        have heqc : ((st, Except.error ("Failed to set value for " ++ vn
            ++ ": the variable has been removed")) : FigmaState × Except String Nat)
            = (st3, r) := heq
        simp only [Prod.mk.injEq] at heqc
        rw [← heqc.1]
        exact ⟨hinv, fun v hv _ => getVar_of_mem_nodup st v hv hinv.1⟩
      · rw [if_neg hrm] at heq
        by_cases htr : jsTruthy d = true
        · rw [if_pos htr] at heq
          have heqc : ((setVarDescription (setVarValue st figId val) figId d,
              Except.ok figId) : FigmaState × Except String Nat) = (st3, r) := heq
          simp only [Prod.mk.injEq] at heqc
          rw [← heqc.1]
          exact ⟨hDinv, hDcell⟩
        · rw [if_neg htr] at heq
          have heqc : ((setVarValue st figId val,
              Except.ok figId) : FigmaState × Except String Nat) = (st3, r) := heq
          simp only [Prod.mk.injEq] at heqc
          rw [← heqc.1]
          exact ⟨hVinv, hVcell⟩
  · rw [hsf] at heq
    have heqc : ((st, Except.error ("Failed to set value for " ++ vn ++ ": " ++ msg))
        : FigmaState × Except String Nat) = (st3, r) := heq
    simp only [Prod.mk.injEq] at heqc
    rw [← heqc.1]
    exact ⟨hinv, fun v hv _ => getVar_of_mem_nodup st v hv hinv.1⟩

/-- `updateVariable` locality: whatever the outcome, every cell whose name
differs from the token's full name is readable unchanged afterwards, and
the store stays well-formed. -/
theorem updateVariable_locality (host : Host) (c : VariableCollection)
    (nvar : NotionVariable) (ex : Option (List Nat)) (st : FigmaState)
    (hinv : StoreInv st) :
    StoreInv (updateVariable host c nvar ex st).1
    ∧ ∀ v ∈ st.vars,
        v.name ≠ (if nvar.group ≠ "" then nvar.group ++ "/" ++ nvar.name else nvar.name) →
        getVar (updateVariable host c nvar ex st).1 v.id = some v := by
  rcases hfc : findOrCreate c
      (if nvar.group ≠ "" then nvar.group ++ "/" ++ nvar.name else nvar.name)
      (convertToFigmaVariableType nvar.type) (ex.getD (liveIds st)) st with ⟨st1, fid⟩
  obtain ⟨h1inv, h1cell, h1safe⟩ := findOrCreate_locality c _ _ _ st st1 fid hinv hfc
  rcases hrc : recreateOnMismatch c
      (if nvar.group ≠ "" then nvar.group ++ "/" ++ nvar.name else nvar.name)
      (convertToFigmaVariableType nvar.type) st1 fid with ⟨st2, r2⟩
  obtain ⟨h2inv, h2cell, h2safe⟩ := recreateOnMismatch_locality c _ _ st1 fid st2 r2
    h1inv h1safe hrc
  have hcell12 : ∀ v ∈ st.vars,
      v.name ≠ (if nvar.group ≠ "" then nvar.group ++ "/" ++ nvar.name else nvar.name) →
      getVar st2 v.id = some v := by
    intro v hv hname
    exact h2cell v (List.mem_of_find?_eq_some (h1cell v hv)) hname
  have hresult : updateVariable host c nvar ex st
      = (match (st2, r2) with
         | (stM, .error e) => (stM, .error e)
         | (stM, .ok figId) =>
           setStep host
             (if nvar.group ≠ "" then nvar.group ++ "/" ++ nvar.name else nvar.name)
             (updateVariableValueToSet nvar (arrVars stM (ex.getD (liveIds st))))
             nvar.description stM figId) := by
    simp only [updateVariable]
    rw [hfc]
    dsimp only
    rw [hrc]
  rcases r2 with e | figId
  · rw [hresult]
    exact ⟨h2inv, hcell12⟩
  · rw [hresult]
    obtain ⟨h3inv, h3cell⟩ := setStep_locality host
      (if nvar.group ≠ "" then nvar.group ++ "/" ++ nvar.name else nvar.name)
      (updateVariableValueToSet nvar (arrVars st2 (ex.getD (liveIds st))))
      nvar.description st2 figId _ _ h2inv (h2safe figId rfl) rfl
    refine ⟨h3inv, ?_⟩
    intro v hv hname
    exact h3cell v (List.mem_of_find?_eq_some (hcell12 v hv hname)) hname

/-- With `overwriteExisting = false`, a token whose full name is in the
existing-variable map takes the skip branch verbatim. -/
theorem pass1Step_ow_false_skip (host : Host) (coll : VariableCollection)
    (m : List (String × NotionVariable)) (s : Pass1State) (nvar : NotionVariable)
    (hm : (jsMapGet m (tokenFullName nvar)).isSome = true) :
    pass1Step host coll m false s nvar
      = { s with skipped := s.skipped + 1, toks := s.toks ++ [nvar] } := by
  unfold pass1Step
  dsimp only
  rw [if_pos (by simp [hm])]

set_option maxHeartbeats 2000000 in
/-- With `overwriteExisting = false`, a token missing from the map leaves
the skip counter alone and mutates the store only through one
`updateVariable` call carrying the token's own name and group. -/
theorem pass1Step_ow_false_noskip (host : Host) (coll : VariableCollection)
    (m : List (String × NotionVariable)) (s : Pass1State) (nvar : NotionVariable)
    (hm : (jsMapGet m (tokenFullName nvar)).isSome = false) :
    (pass1Step host coll m false s nvar).skipped = s.skipped
    ∧ ∃ nv2 : NotionVariable, nv2.group = nvar.group ∧ nv2.name = nvar.name ∧
        (pass1Step host coll m false s nvar).st
          = (updateVariable host coll nv2 (some s.arr) s.st).1 := by
  unfold pass1Step
  dsimp only
  rw [if_neg (by simp [hm])]
  by_cases ht : nvar.type = ""
  · rw [if_pos ht]
    split
    next fb heq1 =>
      split
      next stX nid heq2 =>
        exact ⟨rfl, ⟨{ { nvar with type := detectVariableType nvar.value } with value := .str fb },
          rfl, rfl, (congrArg Prod.fst heq2).symm⟩⟩
      next stX e heq2 =>
        exact ⟨rfl, ⟨{ { nvar with type := detectVariableType nvar.value } with value := .str fb },
          rfl, rfl, (congrArg Prod.fst heq2).symm⟩⟩
    next heq1 =>
      split
      next stX nid heq2 =>
        exact ⟨rfl, ⟨{ nvar with type := detectVariableType nvar.value },
          rfl, rfl, (congrArg Prod.fst heq2).symm⟩⟩
      next stX e heq2 =>
        exact ⟨rfl, ⟨{ nvar with type := detectVariableType nvar.value },
          rfl, rfl, (congrArg Prod.fst heq2).symm⟩⟩
  · rw [if_neg ht]
    split
    next fb heq1 =>
      split
      next stX nid heq2 =>
        exact ⟨rfl, ⟨{ nvar with value := .str fb },
          rfl, rfl, (congrArg Prod.fst heq2).symm⟩⟩
      next stX e heq2 =>
        exact ⟨rfl, ⟨{ nvar with value := .str fb },
          rfl, rfl, (congrArg Prod.fst heq2).symm⟩⟩
    next heq1 =>
      split
      next stX nid heq2 =>
        exact ⟨rfl, ⟨nvar, rfl, rfl, (congrArg Prod.fst heq2).symm⟩⟩
      next stX e heq2 =>
        exact ⟨rfl, ⟨nvar, rfl, rfl, (congrArg Prod.fst heq2).symm⟩⟩

/-- Pass-1 fold with `overwriteExisting = false`: skips count exactly the
map-matching tokens, the store stays well-formed, and a cell all of whose
namesakes in the batch are map-matching is never touched. -/
theorem pass1_ow_false_fold (host : Host) (coll : VariableCollection)
    (m : List (String × NotionVariable)) (vs : List NotionVariable) :
    ∀ s : Pass1State, StoreInv s.st →
      (vs.foldl (pass1Step host coll m false) s).skipped
        = s.skipped + vs.countP (fun t => (jsMapGet m (tokenFullName t)).isSome)
      ∧ StoreInv (vs.foldl (pass1Step host coll m false) s).st
      ∧ ∀ v ∈ s.st.vars,
          (∀ t ∈ vs, tokenFullName t = v.name → (jsMapGet m (tokenFullName t)).isSome = true) →
          getVar (vs.foldl (pass1Step host coll m false) s).st v.id = some v := by
  induction vs with
  | nil =>
    intro s hinv
    refine ⟨by simp, hinv, ?_⟩
    intro v hv _
    exact getVar_of_mem_nodup s.st v hv hinv.1
  | cons t ts ih =>
    intro s hinv
    simp only [List.foldl_cons, List.countP_cons]
    by_cases hm : (jsMapGet m (tokenFullName t)).isSome = true
    · rw [pass1Step_ow_false_skip host coll m s t hm]
      obtain ⟨ih1, ih2, ih3⟩ := ih { s with skipped := s.skipped + 1, toks := s.toks ++ [t] } hinv
      refine ⟨?_, ih2, ?_⟩
      · rw [ih1, if_pos hm]
        have hproj : ({ s with skipped := s.skipped + 1, toks := s.toks ++ [t] }
            : Pass1State).skipped = s.skipped + 1 := rfl
        omega
      · intro v hv hvt
        exact ih3 v hv fun t' ht' => hvt t' (List.mem_cons_of_mem _ ht')
    · have hmf : (jsMapGet m (tokenFullName t)).isSome = false := by simpa using hm
      obtain ⟨hsk, nv2, hg, hn, hst⟩ := pass1Step_ow_false_noskip host coll m s t hmf
      obtain ⟨huinv, hucell⟩ := updateVariable_locality host coll nv2 (some s.arr) s.st hinv
      rw [← hst] at huinv hucell
      obtain ⟨ih1, ih2, ih3⟩ := ih (pass1Step host coll m false s t) huinv
      refine ⟨?_, ih2, ?_⟩
      · rw [ih1, hsk, hmf]
        simp
      · intro v hv hvt
        have hvname : v.name
            ≠ (if nv2.group ≠ "" then nv2.group ++ "/" ++ nv2.name else nv2.name) := by
          have hvn : (if nv2.group ≠ "" then nv2.group ++ "/" ++ nv2.name else nv2.name)
              = tokenFullName t := by
            rw [hg, hn]
            rfl
          rw [hvn]
          intro hcon
          have hres := hvt t (List.mem_cons_self t ts) hcon.symm
          rw [hres] at hmf
          exact absurd hmf (by simp)
        have hcell := hucell v hv hvname
        exact ih3 v (List.mem_of_find?_eq_some hcell)
          fun t' ht' => hvt t' (List.mem_cons_of_mem _ ht')

/-- Pass 2 rewrites nothing when no token value is alias-shaped. -/
theorem pass2_no_alias (host : Host) (coll : VariableCollection) (arr : List Nat) :
    ∀ (toks : List NotionVariable) (st : FigmaState),
      (∀ t ∈ toks, (match t.value with | .str s => jsStartsWith s "\x7b" | _ => false) = false) →
      pass2 host coll arr toks st = st := by
  intro toks
  induction toks with
  | nil =>
    intro st _
    rfl
  | cons t ts ih =>
    intro st hna
    unfold pass2
    simp only [List.foldl_cons]
    have hstep : pass2Step host coll arr st t = st := by
      unfold pass2Step
      dsimp only
      rw [hna t (List.mem_cons_self t ts)]
      rfl
    rw [hstep]
    exact ih st fun t' ht' => hna t' (List.mem_cons_of_mem _ ht')

/-- C1 (amended).  With `overwriteExisting = false`: pass 1 counts as
skipped exactly the tokens whose full name matches the existing-variable
map, and a matched entry's cell survives pass 1 unchanged (provided every
batch token carrying its name is matched).  Pass 2, however, re-writes
every token whose value is alias-shaped, matched or not — the entry is
guaranteed unchanged at the end of the run only when no token value
starts with `{`, in which case pass 2 is the identity. -/
theorem overwrite_false_skip_accounting
    (host : Host) (coll : VariableCollection) (m : List (String × NotionVariable))
    (vs : List NotionVariable) (st : FigmaState) (arr : List Nat)
    (hnd : (st.vars.map fun w => w.id).Nodup)
    (hlt : ∀ v ∈ st.vars, v.id < st.nextId) :
    (pass1 host coll m false vs st arr).skipped
      = vs.countP (fun t => (jsMapGet m (tokenFullName t)).isSome)
    ∧ (∀ v ∈ st.vars,
        (∀ t ∈ vs, tokenFullName t = v.name → (jsMapGet m (tokenFullName t)).isSome = true) →
        getVar (pass1 host coll m false vs st arr).st v.id = some v)
    ∧ (∀ (toks : List NotionVariable) (st2 : FigmaState),
        (∀ t ∈ toks, (match t.value with | .str s => jsStartsWith s "\x7b" | _ => false) = false) →
        pass2 host coll arr toks st2 = st2) := by
  obtain ⟨h1, h2, h3⟩ := pass1_ow_false_fold host coll m vs
    ⟨st, arr, 0, 0, 0, [], []⟩ ⟨hnd, hlt⟩
  refine ⟨?_, ?_, ?_⟩
  · unfold pass1
    rw [h1]
    have hz : ((⟨st, arr, 0, 0, 0, [], []⟩ : Pass1State)).skipped = 0 := rfl
    rw [hz, Nat.zero_add]
  · intro v hv hvt
    unfold pass1
    exact h3 v hv hvt
  · intro toks st2 hna
    exact pass2_no_alias host coll arr toks st2 hna

/-- C1 witness: the amended accounting applied to the concrete skip
scenario — the store's single entry `a` is matched by the one batch token,
so the run skips exactly one token. -/
theorem overwrite_false_skip_accounting_witness :
    ((c1Store.vars.map fun w => w.id).Nodup)
    ∧ (∀ v ∈ c1Store.vars, v.id < c1Store.nextId)
    ∧ (pass1 pureHost testCollection [("a", c1Token)] false [c1Token] c1Store [0]).skipped
        = [c1Token].countP fun t => (jsMapGet [("a", c1Token)] (tokenFullName t)).isSome := by
  refine ⟨by decide, by decide, ?_⟩
  exact (overwrite_false_skip_accounting pureHost testCollection [("a", c1Token)]
    [c1Token] c1Store [0] (by decide) (by decide)).1

/-- C1 counterexample: with `overwriteExisting = false` the matching token
is skipped (skipped = 1, imported = 0), yet the claim's "value unchanged
at the end of the whole run" fails — the token's value is alias-shaped, so
pass 2 rewrites the skipped entry from `"old"` to `"{b}"`. -/
theorem overwrite_false_pass2_rewrites_skipped_entry :
    ((c1Store.vars.filter fun v => v.name = "a").map fun v => v.value) = [.str "old"]
    ∧ ((handleImportFromNotion pureHost (testSettings false false) [c1Token] c1Store).toOption.map
        fun p => (p.2.skipped, p.2.imported,
          (p.1.vars.filter fun v => v.name = "a").map fun v => v.value))
        = some (1, 0, [.str "{b}"]) := by
  decide

end SyncSpec
